import Mathlib

/-!
Verification model of the REE-backed secure file storage engine in
`src/compat/mitee_compat/tee_ree_fs.c`.

The container file living in the untrusted (REE) filesystem is modelled as a
`Disk`: a byte size plus a partial map from byte offsets to typed cells
(counter word, encrypted meta record, encrypted data block).  Reads of a
region strictly beyond the file size yield zero bytes, which the engine
treats as "slot empty"; reads of a region inside the file that was never
written behave like reading plaintext zeros, i.e. authenticated decryption
fails.  The key-manager collaborator (authenticated encryption) is modelled
at the level of its contract: a stored cell remembers the plaintext, the key
it was encrypted under and an `intact` flag, and decryption fails with
MAC_INVALID when the flag is cleared or the key differs.  RPC writes may be
made to fail at chosen offsets through the `wfail` field, mirroring host I/O
failures; RPC reads, scratch allocation and encryption always succeed in the
model.  All machine integers are modelled as `Nat`; the 32-bit meta counter
and the 32-bit size arithmetic of the read/write paths take explicit
`% 2^32` where the source relies on `uint32_t`/`size_t` wrap-around.
-/

/-- Result codes exposed or used internally by the engine
(`TEE_SUCCESS`, `TEE_ERROR_*`). -/
inductive TEE_Result where
  | success
  | badParameters
  | outOfMemory
  | itemNotFound
  | corruptObject
  | macInvalid
  | generic
  deriving DecidableEq, Repr

/-- Source: `#define BLOCK_SHIFT 8`. -/
def BLOCK_SHIFT : Nat := 8

/-- Source: `#define BLOCK_SIZE (1 << BLOCK_SHIFT)`. -/
def BLOCK_SIZE : Nat := 1 <<< BLOCK_SHIFT

/-- Modelled from the spec: `NUM_BLOCKS_PER_FILE` is supplied by the
key-manager collaborator (`tee_fs_key_manager.h`, not under `src/`); it sizes
the backup-version bitmap.  A concrete value is fixed for executability. -/
def NUM_BLOCKS_PER_FILE : Nat := 1024

/-- Source: `#define MAX_FILE_SIZE (BLOCK_SIZE * NUM_BLOCKS_PER_FILE)`. -/
def MAX_FILE_SIZE : Nat := BLOCK_SIZE * NUM_BLOCKS_PER_FILE

/-- Modelled from the spec: maximum seek position,
`TEE_DATA_MAX_POSITION = 0xFFFFFFFF` from the GlobalPlatform API headers
(not under `src/`). -/
def TEE_DATA_MAX_POSITION : Nat := 0xFFFFFFFF

/-- Word wrap bound for the 32-bit quantities of the source
(`uint32_t meta_counter`, 32-bit `size_t` arithmetic). -/
def UINT32_MOD : Nat := 2 ^ 32

/-- File types handed to the key manager (`enum tee_fs_file_type`). -/
inductive tee_fs_file_type where
  | META_FILE
  | BLOCK_FILE
  deriving DecidableEq, Repr

/-- Modelled from the spec: `tee_fs_get_header_size` is provided by the
key-manager collaborator; it returns the authenticated-encryption header size
for each file type.  Concrete positive values are fixed for executability. -/
def tee_fs_get_header_size : tee_fs_file_type → Nat
  | .META_FILE => 64
  | .BLOCK_FILE => 32

/-- Modelled from the spec: byte size of `struct tee_fs_file_info`
(a 32-bit length plus the `NUM_BLOCKS_PER_FILE`-bit backup-version bitmap
stored as `uint32_t` words). -/
def SIZEOF_FILE_INFO : Nat := 4 + 4 * (NUM_BLOCKS_PER_FILE / 32)

/-- Plaintext semantics of `struct tee_fs_file_info`: logical length and the
backup-version bitmap, kept as the source keeps it — a vector of `uint32_t`
words. -/
structure tee_fs_file_info where
  length : Nat
  backup_version_table : List Nat
  deriving DecidableEq, Repr

/-- Plaintext semantics of `struct tee_fs_file_meta`. -/
structure tee_fs_file_meta where
  info : tee_fs_file_info
  encrypted_fek : Nat
  counter : Nat
  deriving DecidableEq, Repr

/-- Open-file state, `struct tee_fs_fd`.  The RPC descriptor is represented
by passing the `Disk` explicitly; `pos` is kept as a `Nat` because `ree_fs_seek`
clamps negative positions to 0 before storing. -/
structure tee_fs_fd where
  meta_counter : Nat
  meta : tee_fs_file_meta
  pos : Nat
  deriving DecidableEq, Repr

/-- Content stored at one written offset of the REE container: the 4-byte
meta counter, an encrypted meta record, or an encrypted data block.
Encrypted cells record the plaintext, the encrypting FEK and an `intact` bit
(cleared to model ciphertext tampering: decryption then fails its MAC
check). -/
inductive Cell where
  | counter (value : Nat)
  | meta (info : tee_fs_file_info) (fek : Nat) (intact : Bool)
  | block (data : List Nat) (fek : Nat) (intact : Bool)
  deriving DecidableEq, Repr

/-- The REE backing file: its byte size, the typed cells written so far
(keyed by byte offset), and the injected RPC write-failure pattern. -/
structure Disk where
  size : Nat
  cells : Nat → Option Cell
  wfail : Nat → Bool

/-- Fresh, empty REE file as produced by `tee_fs_rpc_open(..., create=true)`,
with write failures injected per `wf`. -/
def emptyDisk (wf : Nat → Bool) : Disk :=
  { size := 0, cells := fun _ => none, wfail := wf }

/-- RPC positional write of one encrypted record (or the counter word):
stores the cell at `offs` and extends the file size.  Fails, leaving the
file untouched, when the injected failure pattern says so. -/
def tee_fs_rpc_write (d : Disk) (offs : Nat) (c : Cell) (len : Nat) :
    TEE_Result × Disk :=
  if d.wfail offs then (.generic, d)
  else (.success,
        { d with
          cells := fun o => if o = offs then some c else d.cells o
          size := max d.size (offs + len) })

/-- Source: `pos_to_block_num` — `position >> BLOCK_SHIFT`. -/
def pos_to_block_num (position : Nat) : Nat := position >>> BLOCK_SHIFT

/-- Source: `get_backup_version_of_block` — bit `block_num % 32` of word
`block_num / 32` of the backup-version table. -/
def get_backup_version_of_block (meta : tee_fs_file_meta) (block_num : Nat) :
    Bool :=
  Nat.testBit (meta.info.backup_version_table.getD (block_num / 32) 0)
    (block_num % 32)

/-- Source: `toggle_backup_version_of_block` — xor the selected word with
`1 << (block_num % 32)`. -/
def toggle_backup_version_of_block (meta : tee_fs_file_meta)
    (block_num : Nat) : tee_fs_file_meta :=
  { meta with
    info := { meta.info with
      backup_version_table :=
        meta.info.backup_version_table.set (block_num / 32)
          ((meta.info.backup_version_table.getD (block_num / 32) 0) ^^^
            (1 <<< (block_num % 32))) } }

/-- Source: `meta_size()` — header size for META_FILE plus
`sizeof(struct tee_fs_file_meta.info)`. -/
def meta_size : Nat := tee_fs_get_header_size .META_FILE + SIZEOF_FILE_INFO

/-- Source: `meta_pos_raw(fdp, active)` — starts at `sizeof(uint32_t)` and
adds `meta_size()` when `(fdp->meta_counter & 1) == active`.  The first
argument is the handle's `meta_counter`. -/
def meta_pos_raw (meta_counter : Nat) (active : Bool) : Nat :=
  let offs := 4
  if (meta_counter &&& 1) = (if active then 1 else 0) then offs + meta_size
  else offs

/-- Source: `block_size_raw()` — header size for BLOCK_FILE plus
`BLOCK_SIZE`. -/
def block_size_raw : Nat := tee_fs_get_header_size .BLOCK_FILE + BLOCK_SIZE

/-- Source: `block_pos_raw(meta, block_num, active)` — slot `2*block_num`
or `2*block_num + 1` after the counter word and the two meta slots; the
`+1` slot is taken when `active` equals the block's backup-version bit. -/
def block_pos_raw (meta : tee_fs_file_meta) (block_num : Nat)
    (active : Bool) : Nat :=
  let n := block_num * 2
  let n := if active = get_backup_version_of_block meta block_num then n + 1
           else n
  4 + meta_size * 2 + n * block_size_raw

/-- Source: `write_meta_file` — encrypt `meta->info` under
`meta->encrypted_fek` and write it at the shadow meta offset
`meta_pos_raw(fdp, false)`. -/
def write_meta_file (d : Disk) (fdp : tee_fs_fd) (meta : tee_fs_file_meta) :
    TEE_Result × Disk :=
  let offs := meta_pos_raw fdp.meta_counter false
  tee_fs_rpc_write d offs (.meta meta.info meta.encrypted_fek true) meta_size

/-- Source: `write_meta_counter` — write the handle's 4-byte `meta_counter`
at offset 0. -/
def write_meta_counter (d : Disk) (fdp : tee_fs_fd) : TEE_Result × Disk :=
  tee_fs_rpc_write d 0 (.counter (fdp.meta_counter % UINT32_MOD)) 4

/-- Source: `read_meta_counter` — read 4 bytes at offset 0; any other byte
count is CORRUPT_OBJECT.  A hole below the file size reads as zero bytes,
hence counter 0. -/
def read_meta_counter (d : Disk) (fdp : tee_fs_fd) : TEE_Result × tee_fs_fd :=
  if d.size < 4 then (.corruptObject, fdp)
  else
    match d.cells 0 with
    | some (.counter v) => (.success, { fdp with meta_counter := v })
    | _ => (.success, { fdp with meta_counter := 0 })

/-- Source: `read_meta_file` via `read_and_decrypt_file(META_FILE, ...)` —
read `meta_size` bytes at the active meta offset.  Zero bytes read (offset
at or past the file size) is success with the output length zeroed, leaving
`fdp->meta` as it was; a failed decryption (tampered cell, or raw zeros from
a hole) is mapped to CORRUPT_OBJECT inside `read_and_decrypt_file`.  On
success the decrypted info and the unwrapped `encrypted_fek` populate the
handle's meta. -/
def read_meta_file (d : Disk) (fdp : tee_fs_fd) : TEE_Result × tee_fs_fd :=
  let offs := meta_pos_raw fdp.meta_counter true
  if d.size ≤ offs then (.success, fdp)
  else
    match d.cells offs with
    | some (.meta info fek intact) =>
        if intact then
          (.success,
           { fdp with meta :=
              { fdp.meta with
                info := info
                encrypted_fek := fek } })
        else (.corruptObject, fdp)
    | _ => (.corruptObject, fdp)

/-- Source: `read_meta` — open the RPC file, read the counter, read the
active meta. -/
def read_meta (d : Disk) (fdp : tee_fs_fd) : TEE_Result × tee_fs_fd :=
  match read_meta_counter d fdp with
  | (.success, fdp') => read_meta_file d fdp'
  | (res, fdp') => (res, fdp')

/-- Modelled from the spec: `tee_fs_generate_fek` asks the key manager for a
fresh FEK wrapped under the session UUID; the wrapped key is opaque to the
engine, so a fixed value stands in for it. -/
def tee_fs_generate_fek : Nat := 0x2a

/-- Source: `create_meta` — all-ones backup table, zero length, fresh FEK,
RPC create, `meta.counter := meta_counter`, write the meta at the shadow
offset for counter 0, then write the counter word. -/
def create_meta (wf : Nat → Bool) : TEE_Result × Disk × tee_fs_fd :=
  let d := emptyDisk wf
  let fdp : tee_fs_fd :=
    { meta_counter := 0
      meta :=
        { info :=
            { length := 0
              backup_version_table :=
                List.replicate (NUM_BLOCKS_PER_FILE / 32) 0xffffffff }
          encrypted_fek := tee_fs_generate_fek
          counter := 0 }
      pos := 0 }
  match write_meta_file d fdp fdp.meta with
  | (.success, d') =>
      let (res, d'') := write_meta_counter d' fdp
      (res, d'', fdp)
  | (res, d') => (res, d', fdp)

/-- Source: `commit_meta_file` — set the candidate's counter to
`meta_counter + 1` (32-bit), write it at the shadow meta offset; only on
success adopt the candidate in memory and then write the counter word. -/
def commit_meta_file (d : Disk) (fdp : tee_fs_fd)
    (new_meta : tee_fs_file_meta) :
    TEE_Result × Disk × tee_fs_fd × tee_fs_file_meta :=
  let nm :=
    { new_meta with counter := (fdp.meta_counter + 1) % UINT32_MOD }
  match write_meta_file d fdp nm with
  | (.success, d') =>
      let fdp' := { fdp with meta := nm, meta_counter := nm.counter }
      let (res, d'') := write_meta_counter d' fdp'
      (res, d'', fdp', nm)
  | (res, d') => (res, d', fdp, nm)

/-- Source: `read_block` — read `block_size_raw()` bytes at the active slot
of `bnum`.  Zero bytes read (slot at or past the file size) yields an
all-zero block with success; otherwise the ciphertext is decrypted under
`fdp->meta.encrypted_fek` and a MAC failure surfaces as MAC_INVALID,
unmapped. -/
def read_block (d : Disk) (meta : tee_fs_file_meta) (bnum : Nat) :
    Except TEE_Result (List Nat) :=
  let pos := block_pos_raw meta bnum true
  if d.size ≤ pos then .ok (List.replicate BLOCK_SIZE 0)
  else
    match d.cells pos with
    | some (.block data fek intact) =>
        if intact && (fek == meta.encrypted_fek) then .ok data
        else .error .macInvalid
    | _ => .error .macInvalid

/-- Source: `write_block` — encrypt `BLOCK_SIZE` bytes under the candidate
meta's FEK, write them at the candidate's shadow slot for `bnum`, and on
success toggle the candidate's backup-version bit for `bnum`. -/
def write_block (d : Disk) (bnum : Nat) (data : List Nat)
    (new_meta : tee_fs_file_meta) :
    TEE_Result × Disk × tee_fs_file_meta :=
  let offs := block_pos_raw new_meta bnum false
  match tee_fs_rpc_write d offs
      (.block data new_meta.encrypted_fek true) block_size_raw with
  | (.success, d') => (.success, d', toggle_backup_version_of_block new_meta bnum)
  | (res, d') => (res, d', new_meta)

/-- Bytes the loop body of `out_of_place_write` places into the patched
region of a block: the next chunk of `data_ptr` (`memcpy`) or zero fill when
`data_ptr` is NULL (`memset`, used by truncate-extend). -/
def write_chunk (dp : Option (List Nat)) (size : Nat) : List Nat :=
  match dp with
  | some buf => buf.take size
  | none => List.replicate size 0

/-- Replacement of a block read result by an all-zero block when the read
reported ITEM_NOT_FOUND (`memset(block, 0, BLOCK_SIZE)` in the source;
unreachable in the model, where `read_block` never produces that code). -/
def read_or_zero (r : Except TEE_Result (List Nat)) :
    Except TEE_Result (List Nat) :=
  match r with
  | .error .itemNotFound => .ok (List.replicate BLOCK_SIZE 0)
  | r => r

/-- Loop of `out_of_place_write`, one recursive step per iteration of
`while (start_block_num <= end_block_num)`; `k` is the iteration count fixed
by the block range computed before the loop.  `cur` is the committed meta
used for the read-modify step (`fdp->meta`); `dp` mirrors `data_ptr`; `nm`
is the candidate meta being built.  The first failing step stops the loop
with that result and the state reached so far. -/
def oopLoop (cur : tee_fs_file_meta) :
    Option (List Nat) → Nat → Disk → Nat → Nat → Nat → tee_fs_file_meta →
    TEE_Result × Disk × Nat × tee_fs_file_meta
  | _, 0, d, _, pos, _, nm => (.success, d, pos, nm)
  | dp, k + 1, d, bnum, pos, remain, nm =>
    let offset := pos % BLOCK_SIZE
    let size_to_write := min remain BLOCK_SIZE
    let size_to_write :=
      if size_to_write + offset > BLOCK_SIZE then BLOCK_SIZE - offset
      else size_to_write
    match read_or_zero (read_block d cur bnum) with
    | .error res => (res, d, pos, nm)
    | .ok block =>
        let block' := block.take offset ++ write_chunk dp size_to_write ++
          block.drop (offset + size_to_write)
        match write_block d bnum block' nm with
        | (.success, d', nm') =>
            oopLoop cur (dp.map (List.drop size_to_write)) k d' (bnum + 1)
              (pos + size_to_write) (remain - size_to_write) nm'
        | (res, d', nm') => (res, d', pos, nm')

/-- Iteration count of the block loop of `out_of_place_write`:
`end_block_num + 1 - start_block_num`, computed with the source's C `int`
arithmetic — with `len = 0` the end block is `pos_to_block_num(pos - 1)`,
i.e. `-1` for `pos = 0`, so the count is 0 and the loop body never runs. -/
def oop_iters (pos len : Nat) : Nat :=
  let start_block_num : Int := pos_to_block_num pos
  let end_block_num : Int :=
    Int.fdiv ((pos : Int) + (len : Int) - 1) (BLOCK_SIZE : Int)
  (end_block_num + 1 - start_block_num).toNat

/-- Source: `out_of_place_write` — walk the blocks covering
`[pos, pos + len)`, read-patch-write each into the candidate's shadow slots,
extend the candidate's length if the cursor passed it, and on any failure
restore the cursor to its value at entry (`orig_pos`); with an empty block
range the loop never runs and the initial `TEE_ERROR_GENERIC` is
returned. -/
def out_of_place_write (d : Disk) (fdp : tee_fs_fd) (buf : Option (List Nat))
    (len : Nat) (new_meta : tee_fs_file_meta) :
    TEE_Result × Disk × tee_fs_fd × tee_fs_file_meta :=
  let start_block_num : Nat := pos_to_block_num fdp.pos
  let k : Nat := oop_iters fdp.pos len
  if k = 0 then (.generic, d, fdp, new_meta)
  else
    match oopLoop fdp.meta buf k d start_block_num fdp.pos len new_meta with
    | (.success, d', pos', nm') =>
        let nm'' :=
          if pos' > nm'.info.length then
            { nm' with info := { nm'.info with length := pos' } }
          else nm'
        (.success, d', { fdp with pos := pos' }, nm'')
    | (res, d', _, nm') => (res, d', fdp, nm')

/-- Loop of `ree_fs_read`: `k` iterations over the block range, gathering
`size_to_read` bytes from each decrypted (or zero-filled, when the slot is
past the file size) block; a failing block read stops the loop with that
raw result. -/
def readLoop (d : Disk) (meta : tee_fs_file_meta) :
    Nat → Nat → Nat → Nat → List Nat → TEE_Result × List Nat × Nat
  | 0, _, pos, _, acc => (.success, acc, pos)
  | k + 1, bnum, pos, remain, acc =>
    let offset := pos % BLOCK_SIZE
    let size_to_read := min remain BLOCK_SIZE
    let size_to_read :=
      if size_to_read + offset > BLOCK_SIZE then BLOCK_SIZE - offset
      else size_to_read
    match read_block d meta bnum with
    | .error res => (res, acc, pos)
    | .ok block =>
        readLoop d meta k (bnum + 1) (pos + size_to_read)
          (remain - size_to_read)
          (acc ++ (block.drop offset).take size_to_read)

/-- Source: `ree_fs_read` — clamp the requested length against the logical
file length (zero on 32-bit overflow of `pos + len` or when the cursor sits
past the end), store the effective length back into `*len` (the third
component of the result), then gather the blocks; a MAC_INVALID from a block
read is upgraded to CORRUPT_OBJECT here.  The second component is the data
copied into the caller's buffer, the last the updated handle. -/
def ree_fs_read (d : Disk) (fdp : tee_fs_fd) (len : Nat) :
    TEE_Result × List Nat × Nat × tee_fs_fd :=
  let remain_bytes := len
  let remain_bytes :=
    if (fdp.pos + remain_bytes) % UINT32_MOD < remain_bytes ∨
        fdp.pos > fdp.meta.info.length then 0
    else if fdp.pos + remain_bytes > fdp.meta.info.length then
      fdp.meta.info.length - fdp.pos
    else remain_bytes
  if remain_bytes = 0 then (.success, [], remain_bytes, fdp)
  else
    let start_block_num := pos_to_block_num fdp.pos
    let end_block_num := pos_to_block_num (fdp.pos + remain_bytes - 1)
    let k := end_block_num + 1 - start_block_num
    match readLoop d fdp.meta k start_block_num fdp.pos remain_bytes [] with
    | (res, acc, pos') =>
        let res := if res = .macInvalid then .corruptObject else res
        (res, acc, remain_bytes, { fdp with pos := pos' })

/-- Zero-initialized handle as produced by `calloc` in `open_internal`. -/
def calloc_fd : tee_fs_fd :=
  { meta_counter := 0
    meta :=
      { info :=
          { length := 0
            backup_version_table :=
              List.replicate (NUM_BLOCKS_PER_FILE / 32) 0 }
        encrypted_fek := 0
        counter := 0 }
    pos := 0 }

/-- Source: `ree_fs_open` via `open_internal(file, create=false)` — allocate
a zeroed handle and delegate to `read_meta` on the existing container.  The
path validation and the failure cleanup (closing the RPC fd, freeing the
handle) concern resources outside the model. -/
def ree_fs_open (d : Disk) : TEE_Result × tee_fs_fd :=
  read_meta d calloc_fd

/-- Source: `ree_fs_create` via `open_internal(file, create=true)` —
allocate a zeroed handle and delegate to `create_meta`, which creates the
RPC file; `wf` is the injected RPC write-failure pattern of the fresh
container. -/
def ree_fs_create (wf : Nat → Bool) : TEE_Result × Disk × tee_fs_fd :=
  create_meta wf

/-- Whence selector of `ree_fs_seek` (`TEE_Whence`). -/
inductive TEE_Whence where
  | dataSeekSet
  | dataSeekCur
  | dataSeekEnd
  deriving DecidableEq, Repr

/-- Source: `ree_fs_seek` — compute the new position from `whence`, clamp a
negative result to 0, reject a result above `TEE_DATA_MAX_POSITION`.  The
default-whence BAD_PARAMETERS branch is unreachable over the three-valued
`TEE_Whence`. -/
def ree_fs_seek (fdp : tee_fs_fd) (offset : Int) (whence : TEE_Whence) :
    TEE_Result × tee_fs_fd :=
  let filelen : Nat := fdp.meta.info.length
  let new_pos : Int :=
    match whence with
    | .dataSeekSet => offset
    | .dataSeekCur => (fdp.pos : Int) + offset
    | .dataSeekEnd => (filelen : Int) + offset
  let new_pos := if new_pos < 0 then 0 else new_pos
  if new_pos > (TEE_DATA_MAX_POSITION : Int) then (.badParameters, fdp)
  else (.success, { fdp with pos := new_pos.toNat })

/-- Source: `ree_fs_ftruncate_internal` — reject lengths above
`MAX_FILE_SIZE`; copy the current meta with the new length; when extending,
zero-fill `[old_len, new_len)` through `out_of_place_write` with the cursor
temporarily moved to `old_len` and restored right after; finally commit the
candidate meta. -/
def ree_fs_ftruncate_internal (d : Disk) (fdp : tee_fs_fd)
    (new_file_len : Nat) : TEE_Result × Disk × tee_fs_fd :=
  let old_file_len := fdp.meta.info.length
  if new_file_len > MAX_FILE_SIZE then (.badParameters, d, fdp)
  else
    let new_meta :=
      { fdp.meta with info := { fdp.meta.info with length := new_file_len } }
    if old_file_len < new_file_len then
      let ext_len := new_file_len - old_file_len
      let orig_pos := fdp.pos
      let fdp1 := { fdp with pos := old_file_len }
      match out_of_place_write d fdp1 none ext_len new_meta with
      | (res, d', fdp2, nm') =>
          let fdp3 := { fdp2 with pos := orig_pos }
          if res ≠ .success then (res, d', fdp3)
          else
            match commit_meta_file d' fdp3 nm' with
            | (r, d'', fdp4, _) => (r, d'', fdp4)
    else
      match commit_meta_file d fdp new_meta with
      | (r, d', fdp', _) => (r, d', fdp')

/-- Source: `ree_fs_write` — success without effect on `len == 0`;
BAD_PARAMETERS when `pos + len` exceeds `MAX_FILE_SIZE` or wraps; an
internal truncate-extend to `pos` (committing its own meta) when the file is
shorter than the cursor; then an out-of-place range write on a copy of the
now-current meta followed by the commit. -/
def ree_fs_write (d : Disk) (fdp : tee_fs_fd) (buf : List Nat) :
    TEE_Result × Disk × tee_fs_fd :=
  let len := buf.length
  if len = 0 then (.success, d, fdp)
  else
    let file_size := fdp.meta.info.length
    if (fdp.pos + len) % UINT32_MOD > MAX_FILE_SIZE ∨
        (fdp.pos + len) % UINT32_MOD < len then (.badParameters, d, fdp)
    else
      let step1 : TEE_Result × Disk × tee_fs_fd :=
        if file_size < fdp.pos then ree_fs_ftruncate_internal d fdp fdp.pos
        else (.success, d, fdp)
      match step1 with
      | (.success, d1, fdp1) =>
          match out_of_place_write d1 fdp1 (some buf) len fdp1.meta with
          | (res, d2, fdp2, nm') =>
              if res ≠ .success then (res, d2, fdp2)
              else
                match commit_meta_file d2 fdp2 nm' with
                | (r, d3, fdp3, _) => (r, d3, fdp3)
      | (res, d1, fdp1) => (res, d1, fdp1)

/-- Source: `ree_fs_truncate` — delegates to
`ree_fs_ftruncate_internal`. -/
def ree_fs_truncate (d : Disk) (fdp : tee_fs_fd) (len : Nat) :
    TEE_Result × Disk × tee_fs_fd :=
  ree_fs_ftruncate_internal d fdp len

/-- Value of the meta counter stored at offset 0 of the container, when a
counter word has been written there. -/
def diskCounter (d : Disk) : Option Nat :=
  match d.cells 0 with
  | some (.counter v) => some v
  | _ => none

/-- Byte `i` of the logical file as decoded through meta `m`: the byte the
read path would deliver from the active slot of block `i / BLOCK_SIZE`
(zero when that slot sits past the file size, unspecified 0 when the block
read fails). -/
def readback (d : Disk) (m : tee_fs_file_meta) (i : Nat) : Nat :=
  match read_block d m (i / BLOCK_SIZE) with
  | .ok block => block.getD (i % BLOCK_SIZE) 0
  | .error _ => 0

/-- Readability of block `bnum` through meta `m`: the block read succeeds
and yields a `BLOCK_SIZE`-byte buffer. -/
def readBlockOk (d : Disk) (m : tee_fs_file_meta) (bnum : Nat) : Prop :=
  ∃ block, read_block d m bnum = .ok block ∧ block.length = BLOCK_SIZE

/-- The round-trip scenario of the spec on a fresh, failure-free container:
`create; seek(pos); write(data); close; open; seek(pos); read(|data|)`,
returning the final read's result, the bytes delivered and the reported
byte count.  A failure of any earlier step is returned with an empty
buffer. -/
def roundTrip (pos : Nat) (data : List Nat) : TEE_Result × List Nat × Nat :=
  match ree_fs_create (fun _ => false) with
  | (.success, d0, fd0) =>
    match ree_fs_seek fd0 (pos : Int) .dataSeekSet with
    | (.success, fd1) =>
      match ree_fs_write d0 fd1 data with
      | (.success, d1, _) =>
        match ree_fs_open d1 with
        | (.success, fd3) =>
          match ree_fs_seek fd3 (pos : Int) .dataSeekSet with
          | (.success, fd4) =>
            match ree_fs_read d1 fd4 data.length with
            | (res, out, outLen, _) => (res, out, outLen)
          | (res, _) => (res, [], 0)
        | (res, _) => (res, [], 0)
      | (res, _, _) => (res, [], 0)
    | (res, _) => (res, [], 0)
  | (res, _, _) => (res, [], 0)

/-- Handle-directed public operations of the engine, for stating properties
of arbitrary operation sequences on one handle (rename/remove act on paths
and fsync is an RPC passthrough; none of them touches the container
layout). -/
inductive FsOp where
  | opRead (len : Nat)
  | opWrite (buf : List Nat)
  | opSeek (offset : Int) (whence : TEE_Whence)
  | opTruncate (len : Nat)
  deriving Repr

/-- Run one public operation on the container and handle. -/
def runOp (d : Disk) (fdp : tee_fs_fd) : FsOp → TEE_Result × Disk × tee_fs_fd
  | .opRead len =>
      match ree_fs_read d fdp len with
      | (res, _, _, fdp') => (res, d, fdp')
  | .opWrite buf => ree_fs_write d fdp buf
  | .opSeek offset whence =>
      match ree_fs_seek fdp offset whence with
      | (res, fdp') => (res, d, fdp')
  | .opTruncate len => ree_fs_truncate d fdp len

/-- Committed meta of a one-byte file used as a tampering fixture. -/
def tamperedMeta : tee_fs_file_meta :=
  { info :=
      { length := 1
        backup_version_table := List.replicate (NUM_BLOCKS_PER_FILE / 32) 0 }
    encrypted_fek := 7
    counter := 1 }

/-- Handle matching `tamperedMeta`, cursor at 0. -/
def tamperedFd : tee_fs_fd :=
  { meta_counter := 1, meta := tamperedMeta, pos := 0 }

/-- Container of the one-byte file whose active block-0 ciphertext has been
tampered with (its `intact` bit is cleared, so decryption fails its MAC
check). -/
def tamperedDisk : Disk :=
  { size := block_pos_raw tamperedMeta 0 true + block_size_raw
    cells := fun o =>
      if o = block_pos_raw tamperedMeta 0 true then
        some (.block (List.replicate BLOCK_SIZE 0) 7 false)
      else none
    wfail := fun _ => false }

/-- Byte `j` of the data a range write places into the file: byte `j` of the
caller's buffer, or 0 for the NULL zero fill of truncate-extend. -/
def dpByte (dp : Option (List Nat)) (j : Nat) : Nat :=
  match dp with
  | some buf => buf.getD j 0
  | none => 0

/-- In-memory meta created by `create_meta`: zero length, all-ones backup
table, fresh FEK. -/
def createMeta : tee_fs_file_meta :=
  { info :=
      { length := 0
        backup_version_table :=
          List.replicate (NUM_BLOCKS_PER_FILE / 32) 0xffffffff }
    encrypted_fek := tee_fs_generate_fek
    counter := 0 }

/-- Handle returned by a successful `ree_fs_create`. -/
def createFd : tee_fs_fd :=
  { meta_counter := 0, meta := createMeta, pos := 0 }

/-- Container after a failure-free `ree_fs_create`: counter 0 at offset 0
and the initial meta at slot 1 (offset 200, the shadow slot of counter 0). -/
def createDisk : Disk :=
  { size := 396
    cells := fun o =>
      if o = 0 then some (.counter 0)
      else if o = 200 then
        some (.meta createMeta.info createMeta.encrypted_fek true)
      else none
    wfail := fun _ => false }

/-- Helper: the bit mask of `meta_counter & 1` is the counter's parity. -/
theorem meta_pos_raw_eq (c : Nat) (a : Bool) :
    meta_pos_raw c a =
      if c % 2 = (if a then 1 else 0) then 4 + meta_size else 4 := by
  unfold meta_pos_raw
  rw [Nat.and_one_is_mod]

/-- C4 counterexample: at `counter = 0`, `want_active = false` the parity
equals `want_active`, yet `meta_pos_raw` returns `4 + meta_size` (slot 1),
not the offset 4 the claim predicts. -/
theorem c4_counterexample :
    meta_pos_raw 0 false = 4 + meta_size ∧ meta_pos_raw 0 false ≠ 4 := by
  decide

/-- C4 (amended): for every counter value and both values of `want_active`,
`meta_pos_raw` returns `4 + S_meta` exactly when `(counter & 1)` equals
`want_active`, and 4 otherwise — the slots are swapped relative to the
claim. -/
theorem c4_meta_offset_parity (c : Nat) (a : Bool) :
    (meta_pos_raw c a = 4 + meta_size ↔ (c % 2 = 1 ↔ a = true)) ∧
    (meta_pos_raw c a = 4 ↔ ¬(c % 2 = 1 ↔ a = true)) := by
  have hm : 0 < meta_size := by decide
  rw [meta_pos_raw_eq]
  rcases Nat.mod_two_eq_zero_or_one c with h | h <;> cases a <;>
    simp [h] <;> omega

/-- C8: a block whose active slot lies at or past the file size — the RPC
read returns zero bytes — is delivered as an all-zero `BLOCK_SIZE` buffer
with success. -/
theorem c8_read_block_empty (d : Disk) (m : tee_fs_file_meta) (bnum : Nat)
    (h : d.size ≤ block_pos_raw m bnum true) :
    read_block d m bnum = .ok (List.replicate BLOCK_SIZE 0) := by
  unfold read_block
  simp [h]

/-- C8 witness: reading block 0 of a fresh empty container yields the
all-zero block with success. -/
theorem c8_read_block_empty_witness :
    (emptyDisk (fun _ => false)).size ≤ block_pos_raw calloc_fd.meta 0 true ∧
    read_block (emptyDisk (fun _ => false)) calloc_fd.meta 0 =
      .ok (List.replicate BLOCK_SIZE 0) :=
  ⟨by decide, c8_read_block_empty _ _ _ (by decide)⟩

/-- Helper: `commit_meta_file` never moves the cursor. -/
theorem commit_meta_file_pos (d : Disk) (fdp : tee_fs_fd)
    (nm : tee_fs_file_meta) :
    (commit_meta_file d fdp nm).2.2.1.pos = fdp.pos := by
  unfold commit_meta_file write_meta_file write_meta_counter tee_fs_rpc_write
  dsimp only
  split <;> dsimp only <;> first
  | rfl
  | (split <;> rfl)

/-- Helper: `out_of_place_write` only ever touches the `pos` field of the
handle. -/
theorem out_of_place_write_fd (d : Disk) (fdp : tee_fs_fd)
    (buf : Option (List Nat)) (len : Nat) (nm : tee_fs_file_meta) :
    (out_of_place_write d fdp buf len nm).2.2.1 =
      { fdp with pos := (out_of_place_write d fdp buf len nm).2.2.1.pos } := by
  unfold out_of_place_write
  dsimp only
  split
  · rfl
  · split <;> rfl

/-- C10: both the public truncate and the internal truncate (also used by
`ree_fs_write` to extend a short file up to the cursor) leave the handle's
cursor exactly where it was, on success and on failure alike. -/
theorem c10_truncate_cursor (d : Disk) (fdp : tee_fs_fd) (n len : Nat) :
    (ree_fs_ftruncate_internal d fdp n).2.2.pos = fdp.pos ∧
    (ree_fs_truncate d fdp len).2.2.pos = fdp.pos := by
  have key : ∀ (d : Disk) (fdp : tee_fs_fd) (n : Nat),
      (ree_fs_ftruncate_internal d fdp n).2.2.pos = fdp.pos := by
    intro d fdp n
    unfold ree_fs_ftruncate_internal
    dsimp only
    split
    · rfl
    · split
      · rcases h : out_of_place_write d { fdp with pos := fdp.meta.info.length }
            none (n - fdp.meta.info.length)
            { fdp.meta with info := { fdp.meta.info with length := n } } with
          ⟨res, d', fdp2, nm'⟩
        dsimp only
        split
        · rfl
        · rcases hc : commit_meta_file d' { fdp2 with pos := fdp.pos } nm' with
            ⟨r, d'', fdp4, nmx⟩
          have := commit_meta_file_pos d' { fdp2 with pos := fdp.pos } nm'
          rw [hc] at this
          simpa using this
      · rcases hc : commit_meta_file d fdp
            { fdp.meta with info := { fdp.meta.info with length := n } } with
          ⟨r, d', fdp', nmx⟩
        have := commit_meta_file_pos d fdp
            { fdp.meta with info := { fdp.meta.info with length := n } }
        rw [hc] at this
        simpa using this
  exact ⟨key d fdp n, key d fdp len⟩

/-- Helper: the effective length reported back through `*len` by
`ree_fs_read` equals the source's clamp chain, in every outcome. -/
theorem ree_fs_read_len_eq (d : Disk) (fdp : tee_fs_fd) (len : Nat) :
    (ree_fs_read d fdp len).2.2.1 =
      if (fdp.pos + len) % UINT32_MOD < len ∨ fdp.pos > fdp.meta.info.length
      then 0
      else if fdp.pos + len > fdp.meta.info.length then
        fdp.meta.info.length - fdp.pos
      else len := by
  unfold ree_fs_read
  dsimp only
  by_cases hA : (fdp.pos + len) % UINT32_MOD < len ∨
      fdp.pos > fdp.meta.info.length
  · simp only [hA, if_true]
  · simp only [hA, if_false]
    by_cases hB : fdp.pos + len > fdp.meta.info.length
    · simp only [hB, if_true]
      split <;> rfl
    · simp only [hB, if_false]
      split <;> rfl

/-- C7: the effective read length is 0 when the cursor is past the logical
length or `pos + len` wraps at 32 bits, and `min len (length - pos)`
otherwise; `ree_fs_read` stores exactly this value back into `*len` whatever
the outcome of the block walk, so a read past the length delivers exactly
`max 0 (length - pos)` bytes. -/
theorem c7_read_length_clamp (d : Disk) (fdp : tee_fs_fd) (len : Nat) :
    (ree_fs_read d fdp len).2.2.1 =
      if (fdp.pos + len) % UINT32_MOD < len ∨ fdp.pos > fdp.meta.info.length
      then 0
      else min len (fdp.meta.info.length - fdp.pos) := by
  rw [ree_fs_read_len_eq]
  by_cases hA : (fdp.pos + len) % UINT32_MOD < len ∨
      fdp.pos > fdp.meta.info.length
  · simp only [hA, if_true]
  · simp only [hA, if_false]
    push_neg at hA
    by_cases hB : fdp.pos + len > fdp.meta.info.length
    · simp only [hB, if_true]
      omega
    · simp only [hB, if_false]
      omega

/-- Helper: `read_meta_file` never lets MAC_INVALID through — a failed meta
decryption is reported as CORRUPT_OBJECT inside `read_and_decrypt_file`. -/
theorem read_meta_file_not_mac (d : Disk) (fdp : tee_fs_fd) :
    (read_meta_file d fdp).1 ≠ .macInvalid := by
  unfold read_meta_file
  simp only
  split
  · simp
  · split
    · split <;> simp
    · simp

/-- Helper: `read_meta_counter` only produces SUCCESS or CORRUPT_OBJECT. -/
theorem read_meta_counter_not_mac (d : Disk) (fdp : tee_fs_fd) :
    (read_meta_counter d fdp).1 ≠ .macInvalid := by
  unfold read_meta_counter
  split
  · simp
  · split <;> simp

/-- C5 (amended): the MAC_INVALID-to-CORRUPT_OBJECT upgrade holds on the
read path (`ree_fs_read` maps a block-read MAC failure before returning) and
on meta reads during open (`read_and_decrypt_file` maps any meta decryption
failure); the write and truncate paths, by contrast, propagate a block-read
MAC_INVALID unchanged, as the counterexample shows. -/
theorem c5_mac_upgrade :
    (∀ (d : Disk) (fdp : tee_fs_fd) (len : Nat),
        (ree_fs_read d fdp len).1 ≠ .macInvalid) ∧
    (∀ d : Disk, (ree_fs_open d).1 ≠ .macInvalid) := by
  constructor
  · intro d fdp len
    unfold ree_fs_read
    dsimp only
    repeat' split
    all_goals simp_all
  · intro d
    unfold ree_fs_open read_meta
    split
    · exact read_meta_file_not_mac _ _
    · next res fdp' heq =>
        have := read_meta_counter_not_mac d calloc_fd
        rw [heq] at this
        exact this

/-- C5 counterexample: on a container whose active block-0 ciphertext is
tampered, a 1-byte `ree_fs_write` at position 0 reads the block back, the
decryption fails, and the write returns MAC_INVALID itself — not
CORRUPT_OBJECT — across the engine boundary. -/
theorem c5_counterexample :
    (ree_fs_write tamperedDisk tamperedFd [9]).1 = .macInvalid ∧
    TEE_Result.macInvalid ≠ TEE_Result.corruptObject := by
  decide

/-- C3 counterexample: a successful create leaves meta slot 0 (container
offset 4) unwritten; the initial meta does not go to slot 0 as the claim
states, but to slot 1. -/
theorem c3_counterexample :
    (ree_fs_create (fun _ => false)).1 = .success ∧
    (ree_fs_create (fun _ => false)).2.1.cells 4 = none ∧
    (ree_fs_create (fun _ => false)).2.1.cells (4 + meta_size) ≠ none := by
  decide

/-- C3 (amended): create of a new file sets the backup version table to
all-ones and the length to 0, writes the meta to slot 1 (offset
`4 + meta_size`, which is the shadow slot of an initial counter of 0 under
the source's slot selection), then writes counter 0 at offset 0; afterwards
the handle's `meta_counter` is 0.  When the meta write fails, the counter
write is never issued. -/
theorem c3_create_meta_layout :
    ((ree_fs_create (fun _ => false)).1 = .success ∧
     (ree_fs_create (fun _ => false)).2.2.meta.info.length = 0 ∧
     (ree_fs_create (fun _ => false)).2.2.meta.info.backup_version_table =
       List.replicate (NUM_BLOCKS_PER_FILE / 32) 0xffffffff ∧
     (ree_fs_create (fun _ => false)).2.1.cells (4 + meta_size) =
       some (.meta (ree_fs_create (fun _ => false)).2.2.meta.info
         tee_fs_generate_fek true) ∧
     meta_pos_raw 0 false = 4 + meta_size ∧
     (ree_fs_create (fun _ => false)).2.1.cells 4 = none ∧
     diskCounter (ree_fs_create (fun _ => false)).2.1 = some 0 ∧
     (ree_fs_create (fun _ => false)).2.2.meta_counter = 0) ∧
    ((ree_fs_create (fun o => o == 4 + meta_size)).1 ≠ .success ∧
     diskCounter (ree_fs_create (fun o => o == 4 + meta_size)).2.1 = none) := by
  decide

/-- Helper: for any one counter value, the shadow meta offset and the active
meta offset always differ. -/
theorem meta_pos_raw_shadow_ne_active (c : Nat) :
    meta_pos_raw c false ≠ meta_pos_raw c true := by
  have hm : 0 < meta_size := by decide
  rw [meta_pos_raw_eq, meta_pos_raw_eq]
  rcases Nat.mod_two_eq_zero_or_one c with h | h <;> simp [h] <;> omega

/-- Helper: meta offsets start at or after the 4-byte counter word. -/
theorem meta_pos_raw_ge_four (c : Nat) (a : Bool) : 4 ≤ meta_pos_raw c a := by
  rw [meta_pos_raw_eq]
  by_cases h : c % 2 = (if a then 1 else 0) <;> simp [h]

/-- C2: during commit with the on-disk counter in sync with the handle, the
shadow meta offset differs from the active meta offset, so the live meta
cell is never overwritten; when the shadow meta write fails, nothing (disk
or handle) changes and in particular no counter write is issued; when it
succeeds, the in-memory meta and counter are adopted before the counter
write, and the counter word is then written at offset 0. -/
theorem c2_commit_shadow_discipline (d : Disk) (fdp : tee_fs_fd)
    (nm : tee_fs_file_meta)
    (hsync : diskCounter d = some fdp.meta_counter) :
    meta_pos_raw fdp.meta_counter false ≠ meta_pos_raw fdp.meta_counter true ∧
    (commit_meta_file d fdp nm).2.1.cells
        (meta_pos_raw fdp.meta_counter true) =
      d.cells (meta_pos_raw fdp.meta_counter true) ∧
    (d.wfail (meta_pos_raw fdp.meta_counter false) = true →
      (commit_meta_file d fdp nm).1 ≠ .success ∧
      (commit_meta_file d fdp nm).2.1 = d ∧
      (commit_meta_file d fdp nm).2.2.1 = fdp) ∧
    (d.wfail (meta_pos_raw fdp.meta_counter false) = false →
      (commit_meta_file d fdp nm).2.2.1.meta =
        { nm with counter := (fdp.meta_counter + 1) % UINT32_MOD } ∧
      (commit_meta_file d fdp nm).2.2.1.meta_counter =
        (fdp.meta_counter + 1) % UINT32_MOD ∧
      (d.wfail 0 = false →
        diskCounter (commit_meta_file d fdp nm).2.1 =
          some ((fdp.meta_counter + 1) % UINT32_MOD))) := by
  have hne := meta_pos_raw_shadow_ne_active fdp.meta_counter
  have hge := meta_pos_raw_ge_four fdp.meta_counter true
  refine ⟨hne, ?_, ?_, ?_⟩
  · unfold commit_meta_file write_meta_file write_meta_counter tee_fs_rpc_write
    dsimp only
    by_cases hw : d.wfail (meta_pos_raw fdp.meta_counter false)
    · simp [hw]
    · simp only [hw, Bool.false_eq_true, if_false]
      by_cases hz : d.wfail 0 <;>
        simp [hz, hne.symm, show meta_pos_raw fdp.meta_counter true ≠ 0 by omega]
  · intro hw
    unfold commit_meta_file write_meta_file write_meta_counter tee_fs_rpc_write
    simp [hw]
  · intro hw
    unfold commit_meta_file write_meta_file write_meta_counter tee_fs_rpc_write
    dsimp only
    simp only [hw, Bool.false_eq_true, if_false]
    refine ⟨by trivial, by trivial, ?_⟩
    intro hz
    simp only [hz, Bool.false_eq_true, if_false]
    unfold diskCounter
    simp [Nat.mod_mod_of_dvd]

/-- C2 witness: the freshly created container is in sync with its handle,
and the shadow/active offsets indeed differ there. -/
theorem c2_commit_shadow_discipline_witness :
    diskCounter (ree_fs_create (fun _ => false)).2.1 =
      some (ree_fs_create (fun _ => false)).2.2.meta_counter ∧
    meta_pos_raw (ree_fs_create (fun _ => false)).2.2.meta_counter false ≠
      meta_pos_raw (ree_fs_create (fun _ => false)).2.2.meta_counter true :=
  ⟨by decide,
   (c2_commit_shadow_discipline (ree_fs_create (fun _ => false)).2.1
      (ree_fs_create (fun _ => false)).2.2 tamperedMeta (by decide)).1⟩

/-- Helper: block slots all live past the counter word and the two meta
slots. -/
theorem block_pos_raw_ge (m : tee_fs_file_meta) (b : Nat) (a : Bool) :
    4 + meta_size * 2 ≤ block_pos_raw m b a := by
  unfold block_pos_raw
  dsimp only
  exact Nat.le_add_right _ _

/-- Helper: `write_block` never touches the counter word or the meta
slots. -/
theorem write_block_cells_low (d : Disk) (bnum : Nat) (data : List Nat)
    (nm : tee_fs_file_meta) (o : Nat) (ho : o < 4 + meta_size * 2) :
    (write_block d bnum data nm).2.1.cells o = d.cells o := by
  have hne : o ≠ block_pos_raw nm bnum false := by
    have := block_pos_raw_ge nm bnum false
    omega
  unfold write_block tee_fs_rpc_write
  by_cases hw : d.wfail (block_pos_raw nm bnum false) <;> simp [hw, hne]

/-- Helper: the out-of-place write loop never touches the counter word or
the meta slots. -/
theorem oopLoop_cells_low (cur : tee_fs_file_meta) (dp : Option (List Nat))
    (k : Nat) (d : Disk) (bnum pos remain : Nat) (nm : tee_fs_file_meta)
    (o : Nat) (ho : o < 4 + meta_size * 2) :
    (oopLoop cur dp k d bnum pos remain nm).2.1.cells o = d.cells o := by
  induction k generalizing dp d bnum pos remain nm with
  | zero => rfl
  | succ k ih =>
      unfold oopLoop
      dsimp only
      split
      · rfl
      · split
        · next d' nm' heq =>
            rw [ih]
            have h2 := congrArg (fun t => t.2.1.cells o) heq
            dsimp only at h2
            rw [← h2]
            exact write_block_cells_low _ _ _ _ _ ho
        · next res d' nm' heq =>
            have h2 := congrArg (fun t => t.2.1.cells o) heq
            dsimp only at h2
            rw [← h2]
            exact write_block_cells_low _ _ _ _ _ ho

/-- C9: when any per-block step of `out_of_place_write` fails, the handle is
returned exactly as it was at entry (the cursor is restored, the meta and
counter snapshots were never touched), the counter word and both meta slots
on disk are untouched — no commit has happened — and the on-disk counter is
unchanged. -/
theorem c9_oop_failure_frame (d : Disk) (fdp : tee_fs_fd)
    (buf : Option (List Nat)) (len : Nat) (nm : tee_fs_file_meta)
    (hfail : (out_of_place_write d fdp buf len nm).1 ≠ .success) :
    (out_of_place_write d fdp buf len nm).2.2.1 = fdp ∧
    (∀ o, o < 4 + meta_size * 2 →
      (out_of_place_write d fdp buf len nm).2.1.cells o = d.cells o) ∧
    diskCounter (out_of_place_write d fdp buf len nm).2.1 = diskCounter d := by
  have hcells : ∀ o, o < 4 + meta_size * 2 →
      (out_of_place_write d fdp buf len nm).2.1.cells o = d.cells o := by
    intro o ho
    unfold out_of_place_write
    dsimp only
    split
    · rfl
    · split
      · next d' pos' nm' heq =>
          have h2 := congrArg (fun t => t.2.1.cells o) heq
          dsimp only at h2
          rw [← h2]
          exact oopLoop_cells_low _ _ _ _ _ _ _ _ _ ho
      · next res d' pos' nm' heq =>
          have h2 := congrArg (fun t => t.2.1.cells o) heq
          dsimp only at h2
          rw [← h2]
          exact oopLoop_cells_low _ _ _ _ _ _ _ _ _ ho
  have hfd : (out_of_place_write d fdp buf len nm).2.2.1 = fdp := by
    revert hfail
    unfold out_of_place_write
    dsimp only
    split
    · intro _
      rfl
    · split
      · next d' pos' nm' heq =>
          intro hfail
          exact absurd rfl hfail
      · intro _
        rfl
  refine ⟨hfd, hcells, ?_⟩
  unfold diskCounter
  rw [hcells 0 (by omega)]

/-- C9 witness: a concrete failing range write — the block read fails its
MAC check on the tampered container — returns the handle unchanged. -/
theorem c9_oop_failure_frame_witness :
    (out_of_place_write tamperedDisk tamperedFd (some [9]) 1 tamperedMeta).1 ≠
      .success ∧
    (out_of_place_write tamperedDisk tamperedFd (some [9]) 1
        tamperedMeta).2.2.1 = tamperedFd :=
  ⟨by decide,
   (c9_oop_failure_frame tamperedDisk tamperedFd (some [9]) 1 tamperedMeta
      (by decide)).1⟩

/-- Helper: the range write never touches the handle's counter snapshot. -/
theorem out_of_place_write_meta_counter (d : Disk) (fdp : tee_fs_fd)
    (buf : Option (List Nat)) (len : Nat) (nm : tee_fs_file_meta) :
    (out_of_place_write d fdp buf len nm).2.2.1.meta_counter =
      fdp.meta_counter := by
  rw [out_of_place_write_fd]

/-- Helper: the range write never touches the handle's meta snapshot. -/
theorem out_of_place_write_meta (d : Disk) (fdp : tee_fs_fd)
    (buf : Option (List Nat)) (len : Nat) (nm : tee_fs_file_meta) :
    (out_of_place_write d fdp buf len nm).2.2.1.meta = fdp.meta := by
  rw [out_of_place_write_fd]

/-- Helper: a successful commit leaves the on-disk counter word and the
handle's counter at `meta_counter + 1` (32-bit). -/
theorem commit_success_counter (d : Disk) (fdp : tee_fs_fd)
    (nm : tee_fs_file_meta)
    (h : (commit_meta_file d fdp nm).1 = .success) :
    diskCounter (commit_meta_file d fdp nm).2.1 =
      some ((fdp.meta_counter + 1) % UINT32_MOD) ∧
    (commit_meta_file d fdp nm).2.2.1.meta_counter =
      (fdp.meta_counter + 1) % UINT32_MOD := by
  revert h
  unfold commit_meta_file write_meta_file write_meta_counter tee_fs_rpc_write
  dsimp only
  by_cases hw : d.wfail (meta_pos_raw fdp.meta_counter false)
  · simp [hw]
  · simp only [hw, Bool.false_eq_true, if_false]
    by_cases hz : d.wfail 0
    · simp [hz]
    · simp only [hz, Bool.false_eq_true, if_false]
      intro _
      refine ⟨?_, trivial⟩
      unfold diskCounter
      simp [Nat.mod_mod_of_dvd]

/-- Helper: a successful truncate commits exactly once, moving both the
on-disk counter word and the handle's counter to `meta_counter + 1`
(32-bit). -/
theorem ftruncate_success_counter (d : Disk) (fdp : tee_fs_fd) (n : Nat)
    (h : (ree_fs_ftruncate_internal d fdp n).1 = .success) :
    diskCounter (ree_fs_ftruncate_internal d fdp n).2.1 =
      some ((fdp.meta_counter + 1) % UINT32_MOD) ∧
    (ree_fs_ftruncate_internal d fdp n).2.2.meta_counter =
      (fdp.meta_counter + 1) % UINT32_MOD := by
  revert h
  unfold ree_fs_ftruncate_internal
  dsimp only
  split
  · intro h
    simp at h
  · split
    · split
      · next hne =>
          intro h
          simp only at h
          exact absurd h hne
      · intro h
        obtain ⟨h1, h2⟩ := commit_success_counter _ _ _ h
        dsimp only at h1 h2 ⊢
        constructor
        · rw [h1, out_of_place_write_meta_counter]
        · rw [h2, out_of_place_write_meta_counter]
    · intro h
      have hc := commit_success_counter _ _ _ h
      dsimp only at hc ⊢
      exact hc

/-- Helper: a successful nonzero write commits once — or twice when it had
to extend a short file up to the cursor first — leaving the on-disk counter
at `meta_counter + 1` or `meta_counter + 2` (32-bit). -/
theorem ree_fs_write_success_counter (d : Disk) (fdp : tee_fs_fd)
    (buf : List Nat) (hb : buf ≠ [])
    (h : (ree_fs_write d fdp buf).1 = .success) :
    diskCounter (ree_fs_write d fdp buf).2.1 =
      some ((fdp.meta_counter + 1) % UINT32_MOD) ∨
    diskCounter (ree_fs_write d fdp buf).2.1 =
      some (((fdp.meta_counter + 1) % UINT32_MOD + 1) % UINT32_MOD) := by
  revert h
  unfold ree_fs_write
  dsimp only
  rw [if_neg (fun hl => hb (List.length_eq_zero.mp hl))]
  split
  · intro h
    simp at h
  · split
    · next d1 fdp1 heq =>
        split
        · next hne =>
            intro h
            simp only at h
            exact absurd h hne
        · intro h
          obtain ⟨h1, h2⟩ := commit_success_counter _ _ _ h
          dsimp only at h1 h2 ⊢
          rw [h1, out_of_place_write_meta_counter]
          by_cases hlt : fdp.meta.info.length < fdp.pos
          · rw [if_pos hlt] at heq
            have hs : (ree_fs_ftruncate_internal d fdp fdp.pos).1 =
                .success := by
              rw [heq]
            have hmc := (ftruncate_success_counter d fdp fdp.pos hs).2
            have hfd1 : fdp1 = (ree_fs_ftruncate_internal d fdp fdp.pos).2.2 := by
              rw [heq]
            right
            rw [hfd1, hmc]
          · rw [if_neg hlt] at heq
            have hfd1 : fdp1 = fdp := by
              have := congrArg (fun t => t.2.2) heq
              simpa using this.symm
            left
            rw [hfd1]
    · next res d1 fdp1 heq =>
        intro h
        simp only at h
        exact absurd h (by assumption)

/-- C6 counterexample: a zero-length write is a successful write operation
that leaves the on-disk counter untouched, so the counter does not strictly
increase on every successful write. -/
theorem c6_counterexample :
    (ree_fs_write (ree_fs_create (fun _ => false)).2.1
        (ree_fs_create (fun _ => false)).2.2 []).1 = .success ∧
    diskCounter (ree_fs_write (ree_fs_create (fun _ => false)).2.1
        (ree_fs_create (fun _ => false)).2.2 []).2.1 =
      diskCounter (ree_fs_create (fun _ => false)).2.1 := by
  decide

/-- C6 (amended): with the on-disk counter in sync with the handle and
below the 32-bit wrap, every successful handle operation leaves the on-disk
counter at or above its previous value, and every successful truncate or
nonzero-length write strictly increases it (each commit writes
`meta_counter + 1`; a write that extends first commits twice); a
zero-length write succeeds without touching the counter, and the 32-bit
counter arithmetic wraps at `2^32`. -/
theorem c6_counter_monotone (op : FsOp) (d : Disk) (fdp : tee_fs_fd)
    (hsync : diskCounter d = some fdp.meta_counter)
    (hlow : fdp.meta_counter + 2 < UINT32_MOD)
    (hsucc : (runOp d fdp op).1 = .success) :
    ∃ c', diskCounter (runOp d fdp op).2.1 = some c' ∧
      fdp.meta_counter ≤ c' ∧
      (match op with
       | .opWrite buf => buf ≠ [] → fdp.meta_counter < c'
       | .opTruncate _ => fdp.meta_counter < c'
       | _ => True) := by
  cases op with
  | opRead len =>
      exact ⟨fdp.meta_counter, hsync, Nat.le_refl _, trivial⟩
  | opSeek offset whence =>
      exact ⟨fdp.meta_counter, hsync, Nat.le_refl _, trivial⟩
  | opTruncate len =>
      have h := (ftruncate_success_counter d fdp len hsucc).1
      refine ⟨(fdp.meta_counter + 1) % UINT32_MOD, h, ?_, ?_⟩ <;>
        rw [Nat.mod_eq_of_lt (by omega)] <;> omega
  | opWrite buf =>
      by_cases hb : buf = []
      · subst hb
        exact ⟨fdp.meta_counter, hsync, Nat.le_refl _,
          fun hne => absurd rfl hne⟩
      · rcases ree_fs_write_success_counter d fdp buf hb hsucc with h | h
        · refine ⟨(fdp.meta_counter + 1) % UINT32_MOD, h, ?_, fun _ => ?_⟩ <;>
            rw [Nat.mod_eq_of_lt (by omega)] <;> omega
        · have e1 : (fdp.meta_counter + 1) % UINT32_MOD =
              fdp.meta_counter + 1 := Nat.mod_eq_of_lt (by omega)
          refine ⟨((fdp.meta_counter + 1) % UINT32_MOD + 1) % UINT32_MOD, h,
            ?_, fun _ => ?_⟩ <;>
            rw [e1, Nat.mod_eq_of_lt (by omega)] <;> omega

/-- C6 witness: a truncate on the freshly created container succeeds and
strictly increases the on-disk counter. -/
theorem c6_counter_monotone_witness :
    (diskCounter (ree_fs_create (fun _ => false)).2.1 =
        some (ree_fs_create (fun _ => false)).2.2.meta_counter ∧
     (ree_fs_create (fun _ => false)).2.2.meta_counter + 2 < UINT32_MOD ∧
     (runOp (ree_fs_create (fun _ => false)).2.1
        (ree_fs_create (fun _ => false)).2.2 (.opTruncate 0)).1 = .success) ∧
    (∃ c', diskCounter (runOp (ree_fs_create (fun _ => false)).2.1
          (ree_fs_create (fun _ => false)).2.2 (.opTruncate 0)).2.1 =
        some c' ∧
      (ree_fs_create (fun _ => false)).2.2.meta_counter ≤ c' ∧
      (ree_fs_create (fun _ => false)).2.2.meta_counter < c') :=
  ⟨⟨by decide, by decide, by decide⟩,
   c6_counter_monotone (.opTruncate 0) (ree_fs_create (fun _ => false)).2.1
     (ree_fs_create (fun _ => false)).2.2 (by decide) (by decide) (by decide)⟩

/-- Helper: reading back the word just stored in the bitmap. -/
theorem getD_set_self_nat (l : List Nat) (i x : Nat) (h : i < l.length) :
    (l.set i x).getD i 0 = x := by
  rw [List.getD_eq_getElem _ _ (by simpa using h)]
  exact List.getElem_set_self _

/-- Helper: storing one bitmap word leaves the others unchanged. -/
theorem getD_set_other_nat (l : List Nat) (i x j : Nat) (h : j ≠ i) :
    (l.set i x).getD j 0 = l.getD j 0 := by
  by_cases hj : j < l.length
  · rw [List.getD_eq_getElem _ _ (by simpa using hj),
      List.getD_eq_getElem _ _ hj]
    exact List.getElem_set_ne (fun he => h he.symm) _
  · rw [List.getD_eq_default _ _ (by simpa using Nat.le_of_not_lt hj),
      List.getD_eq_default _ _ (Nat.le_of_not_lt hj)]

/-- Helper: toggling a block's backup-version bit flips exactly that
bit. -/
theorem get_toggle_self (m : tee_fs_file_meta) (b : Nat)
    (hb : b / 32 < m.info.backup_version_table.length) :
    get_backup_version_of_block (toggle_backup_version_of_block m b) b =
      ! get_backup_version_of_block m b := by
  unfold get_backup_version_of_block toggle_backup_version_of_block
  dsimp only
  rw [getD_set_self_nat _ _ _ hb, Nat.one_shiftLeft, Nat.testBit_xor,
    Nat.testBit_two_pow_self, Bool.xor_true]

/-- Helper: toggling a block's backup-version bit leaves every other
block's bit unchanged. -/
theorem get_toggle_other (m : tee_fs_file_meta) (b b' : Nat) (hne : b' ≠ b) :
    get_backup_version_of_block (toggle_backup_version_of_block m b) b' =
      get_backup_version_of_block m b' := by
  unfold get_backup_version_of_block toggle_backup_version_of_block
  dsimp only
  by_cases hw : b' / 32 = b / 32
  · by_cases hb : b / 32 < m.info.backup_version_table.length
    · rw [hw, getD_set_self_nat _ _ _ hb, Nat.one_shiftLeft, Nat.testBit_xor,
        Nat.testBit_two_pow_of_ne (by omega), Bool.xor_false]
    · rw [List.set_eq_of_length_le (Nat.le_of_not_lt hb)]
  · rw [getD_set_other_nat _ _ _ _ hw]

/-- Helper: the toggle touches only the bitmap. -/
theorem toggle_fields (m : tee_fs_file_meta) (b : Nat) :
    (toggle_backup_version_of_block m b).encrypted_fek = m.encrypted_fek ∧
    (toggle_backup_version_of_block m b).info.length = m.info.length ∧
    (toggle_backup_version_of_block m b).counter = m.counter ∧
    (toggle_backup_version_of_block m b).info.backup_version_table.length =
      m.info.backup_version_table.length := by
  unfold toggle_backup_version_of_block
  exact ⟨rfl, rfl, rfl, by simp⟩

/-- Helper: lower bound of a block slot's offset. -/
theorem block_pos_raw_lb (m : tee_fs_file_meta) (b : Nat) (a : Bool) :
    4 + meta_size * 2 + 2 * b * block_size_raw ≤ block_pos_raw m b a := by
  unfold block_pos_raw
  dsimp only
  split <;>
    simp only [show block_size_raw = 288 from rfl,
      show meta_size = 196 from rfl] <;> omega

/-- Helper: upper bound of a block slot's offset. -/
theorem block_pos_raw_ub (m : tee_fs_file_meta) (b : Nat) (a : Bool) :
    block_pos_raw m b a ≤ 4 + meta_size * 2 + (2 * b + 1) * block_size_raw := by
  unfold block_pos_raw
  dsimp only
  split <;>
    simp only [show block_size_raw = 288 from rfl,
      show meta_size = 196 from rfl] <;> omega

/-- Helper: the slot offset depends on the meta only through the block's
backup-version bit. -/
theorem block_pos_raw_congr (m1 m2 : tee_fs_file_meta) (b : Nat) (a : Bool)
    (hb : get_backup_version_of_block m1 b = get_backup_version_of_block m2 b) :
    block_pos_raw m1 b a = block_pos_raw m2 b a := by
  unfold block_pos_raw
  rw [hb]

/-- Helper: after the toggle, the block's active slot is exactly the shadow
slot it was just written to. -/
theorem block_pos_raw_toggle_active (nm : tee_fs_file_meta) (b : Nat)
    (hb : b / 32 < nm.info.backup_version_table.length) :
    block_pos_raw (toggle_backup_version_of_block nm b) b true =
      block_pos_raw nm b false := by
  unfold block_pos_raw
  rw [get_toggle_self nm b hb]
  cases get_backup_version_of_block nm b <;> rfl

/-- Helper: a block read depends on the meta only through the block's bit
and the FEK. -/
theorem read_block_congr (d : Disk) (m1 m2 : tee_fs_file_meta) (b : Nat)
    (hb : get_backup_version_of_block m1 b = get_backup_version_of_block m2 b)
    (hf : m1.encrypted_fek = m2.encrypted_fek) :
    read_block d m1 b = read_block d m2 b := by
  unfold read_block
  rw [block_pos_raw_congr m1 m2 b true hb, hf]

/-- Helper: `readback` congruence in the meta. -/
theorem readback_congr (d : Disk) (m1 m2 : tee_fs_file_meta) (i : Nat)
    (hb : get_backup_version_of_block m1 (i / BLOCK_SIZE) =
      get_backup_version_of_block m2 (i / BLOCK_SIZE))
    (hf : m1.encrypted_fek = m2.encrypted_fek) :
    readback d m1 i = readback d m2 i := by
  unfold readback
  rw [read_block_congr d m1 m2 _ hb hf]

/-- Helper: a block read is unaffected by a cell write that sits entirely
below the block's active slot (or misses it while the slot is already
inside the file). -/
theorem read_block_write_above (d : Disk) (cur : tee_fs_file_meta) (b : Nat)
    (offs : Nat) (c : Cell) (L : Nat)
    (h1 : offs ≠ block_pos_raw cur b true)
    (h2 : offs + L ≤ block_pos_raw cur b true ∨
      block_pos_raw cur b true < d.size) :
    read_block
      { d with cells := fun o => if o = offs then some c else d.cells o
               size := max d.size (offs + L) } cur b =
      read_block d cur b := by
  unfold read_block
  dsimp only
  by_cases hsz : d.size ≤ block_pos_raw cur b true
  · have h2' : offs + L ≤ block_pos_raw cur b true := by
      rcases h2 with h | h
      · exact h
      · omega
    rw [if_pos hsz, if_pos (by omega : max d.size (offs + L) ≤ _)]
  · rw [if_neg hsz, if_neg (by omega : ¬ max d.size (offs + L) ≤ _)]
    rw [if_neg h1.symm]

/-- Helper: meta offsets end before the block area. -/
theorem meta_pos_raw_le (c : Nat) (a : Bool) :
    meta_pos_raw c a ≤ 4 + meta_size := by
  rw [meta_pos_raw_eq]
  by_cases h : c % 2 = (if a then 1 else 0) <;> simp [h]

/-- Helper: the shadow meta slot under counter `c` is exactly the active
slot once the on-disk counter has moved to `c + 1`. -/
theorem meta_shadow_becomes_active (c : Nat) :
    meta_pos_raw ((c + 1) % UINT32_MOD) true = meta_pos_raw c false := by
  rw [meta_pos_raw_eq, meta_pos_raw_eq]
  have h2 : (c + 1) % UINT32_MOD % 2 = (c + 1) % 2 :=
    Nat.mod_mod_of_dvd _ (by norm_num [UINT32_MOD])
  rw [h2]
  rcases Nat.mod_two_eq_zero_or_one c with h | h <;>
    simp [Nat.add_mod, h]

/-- Helper: full description of a commit on a container whose relevant RPC
writes succeed — the result, the adopted handle, and the disk's size, cell
and failure-pattern changes. -/
theorem commit_meta_file_nofail (d : Disk) (fdp : tee_fs_fd)
    (nm : tee_fs_file_meta)
    (h1 : d.wfail (meta_pos_raw fdp.meta_counter false) = false)
    (h2 : d.wfail 0 = false) :
    (commit_meta_file d fdp nm).1 = .success ∧
    (commit_meta_file d fdp nm).2.2.1 =
      { fdp with
        meta := { nm with counter := (fdp.meta_counter + 1) % UINT32_MOD }
        meta_counter := (fdp.meta_counter + 1) % UINT32_MOD } ∧
    (commit_meta_file d fdp nm).2.1.wfail = d.wfail ∧
    (commit_meta_file d fdp nm).2.1.size =
      max (max d.size (meta_pos_raw fdp.meta_counter false + meta_size)) 4 ∧
    (commit_meta_file d fdp nm).2.1.cells 0 =
      some (.counter ((fdp.meta_counter + 1) % UINT32_MOD)) ∧
    (commit_meta_file d fdp nm).2.1.cells
        (meta_pos_raw fdp.meta_counter false) =
      some (.meta nm.info nm.encrypted_fek true) ∧
    (∀ o, o ≠ 0 → o ≠ meta_pos_raw fdp.meta_counter false →
      (commit_meta_file d fdp nm).2.1.cells o = d.cells o) := by
  have hne0 : meta_pos_raw fdp.meta_counter false ≠ 0 := by
    have := meta_pos_raw_ge_four fdp.meta_counter false
    omega
  unfold commit_meta_file write_meta_file write_meta_counter tee_fs_rpc_write
  dsimp only
  simp only [h1, Bool.false_eq_true, if_false]
  simp only [h2, Bool.false_eq_true, if_false]
  refine ⟨by trivial, by trivial, by trivial, by dsimp only,
    by simp [Nat.mod_mod_of_dvd], by simp [hne0],
    fun o ho0 hom => by simp [ho0, hom]⟩

/-- Helper: a commit never disturbs block reads — its two writes land below
the block area, and the file size does not move once the container spans
the block area's start. -/
theorem read_block_after_commit (d : Disk) (fdp : tee_fs_fd)
    (nm : tee_fs_file_meta)
    (h1 : d.wfail (meta_pos_raw fdp.meta_counter false) = false)
    (h2 : d.wfail 0 = false)
    (hsz : 4 + meta_size * 2 ≤ d.size)
    (m : tee_fs_file_meta) (b : Nat) :
    read_block (commit_meta_file d fdp nm).2.1 m b = read_block d m b := by
  obtain ⟨-, -, -, hsize, -, -, hcells⟩ := commit_meta_file_nofail d fdp nm h1 h2
  have hge := block_pos_raw_lb m b true
  have hle := meta_pos_raw_le fdp.meta_counter false
  have hmpos : meta_pos_raw fdp.meta_counter false + meta_size ≤ d.size := by
    have hm : meta_size = 196 := rfl
    omega
  have hm : meta_size = 196 := rfl
  have hmax_eq :
      max (max d.size (meta_pos_raw fdp.meta_counter false + meta_size)) 4 =
        d.size := by omega
  unfold read_block
  simp only []
  rw [hsize, hmax_eq, hcells _ (by omega) (by omega)]

/-- Helper: the bytes the read loop copies out of one decrypted block are
exactly the `readback` bytes of the corresponding file positions. -/
theorem read_chunk_eq (d : Disk) (m : tee_fs_file_meta) (pos sz : Nat)
    (blk : List Nat) (hblk : read_block d m (pos / 256) = .ok blk)
    (hlen : blk.length = 256) (hsz : sz ≤ 256 - pos % 256) :
    (blk.drop (pos % 256)).take sz =
      (List.range sz).map (fun j => readback d m (pos + j)) := by
  apply List.ext_getElem
  · simp [hlen]
    omega
  · intro j h1 h2
    have hj : j < sz := by simpa using h2
    rw [List.getElem_take, List.getElem_drop, List.getElem_map,
      List.getElem_range]
    unfold readback
    have hdiv : (pos + j) / BLOCK_SIZE = pos / 256 := by
      have h256 : BLOCK_SIZE = 256 := rfl
      rw [h256]
      omega
    rw [hdiv, hblk]
    dsimp only
    have hmod : (pos + j) % BLOCK_SIZE = pos % 256 + j := by
      have h256 : BLOCK_SIZE = 256 := rfl
      rw [h256]
      omega
    rw [hmod, List.getD_eq_getElem _ _ (by omega)]

/-- Helper: with the right iteration count and every covered block
readable, the read loop succeeds and delivers exactly the `readback` bytes
of `[pos, pos + remain)`, advancing the cursor to the end of the range. -/
theorem readLoop_spec (d : Disk) (m : tee_fs_file_meta) :
    ∀ (k pos remain : Nat) (acc : List Nat),
    k = (if remain = 0 then 0
         else (pos + remain - 1) / BLOCK_SIZE + 1 - pos / BLOCK_SIZE) →
    (∀ b, pos / BLOCK_SIZE ≤ b → b * BLOCK_SIZE < pos + remain →
      1 ≤ remain → readBlockOk d m b) →
    readLoop d m k (pos / BLOCK_SIZE) pos remain acc =
      (.success,
       acc ++ (List.range remain).map (fun j => readback d m (pos + j)),
       pos + remain) := by
  intro k
  induction k with
  | zero =>
      intro pos remain acc hk hok
      have h256 : BLOCK_SIZE = 256 := rfl
      have hrem : remain = 0 := by
        by_contra h
        rw [if_neg h, h256] at hk
        omega
      subst hrem
      simp [readLoop]
  | succ k ih =>
      intro pos remain acc hk hok
      have h256 : BLOCK_SIZE = 256 := rfl
      have hrem : remain ≠ 0 := by
        intro h
        rw [if_pos h] at hk
        exact Nat.succ_ne_zero k hk
      rw [if_neg hrem, h256] at hk
      obtain ⟨blk, hblk, hlen⟩ := hok (pos / BLOCK_SIZE) (Nat.le_refl _)
        (by rw [h256]; omega) (by omega)
      unfold readLoop
      rw [hblk]
      simp only [h256]
      have hsz_eq : (if min remain 256 + pos % 256 > 256
          then 256 - pos % 256 else min remain 256) =
          min remain (256 - pos % 256) := by
        split <;> omega
      rw [hsz_eq]
      rw [h256] at hlen
      by_cases hA : remain ≤ 256 - pos % 256
      · have hszA : min remain (256 - pos % 256) = remain := by omega
        rw [hszA]
        have hk0 : k = 0 := by omega
        subst hk0
        have hchunk := read_chunk_eq d m pos remain blk
          (by rw [← h256]; exact hblk) hlen (by omega)
        rw [hchunk]
        simp [readLoop, Nat.sub_self]
      · have hszB : min remain (256 - pos % 256) = 256 - pos % 256 := by
          omega
        rw [hszB]
        set sz := 256 - pos % 256 with hszdef
        have hb1 : pos / 256 + 1 = (pos + sz) / 256 := by omega
        rw [hb1]
        have hrec := ih (pos + sz) (remain - sz)
          (acc ++ (blk.drop (pos % 256)).take sz)
          (by
            rw [if_neg (by omega), h256]
            omega)
          (by
            intro b hb hlt hr
            exact hok b (by rw [h256] at hb ⊢; omega)
              (by rw [h256] at hlt ⊢; omega) (by omega))
        rw [h256] at hrec
        rw [hrec]
        have hchunk := read_chunk_eq d m pos sz blk
          (by rw [← h256]; exact hblk) hlen (by omega)
        rw [hchunk]
        have hsplit : (List.range remain).map
              (fun j => readback d m (pos + j)) =
            (List.range sz).map (fun j => readback d m (pos + j)) ++
            (List.range (remain - sz)).map
              (fun j => readback d m (pos + sz + j)) := by
          apply List.ext_getElem
          · simp
            omega
          · intro j h1 h2
            rw [List.getElem_map, List.getElem_range]
            by_cases hj : j < sz
            · rw [List.getElem_append_left (by simp [hj]), List.getElem_map,
                List.getElem_range]
            · rw [List.getElem_append_right (by simp at hj ⊢; omega),
                List.getElem_map, List.getElem_range]
              simp only [List.length_map, List.length_range]
              congr 1
              omega
        rw [hsplit, List.append_assoc]
        refine congrArg _ (congrArg _ ?_)
        omega

/-- Helper: explicit form of a successful `write_block` on a container
whose RPC write at the shadow slot succeeds. -/
theorem write_block_nofail (d : Disk) (bnum : Nat) (data : List Nat)
    (nm : tee_fs_file_meta)
    (hw : d.wfail (block_pos_raw nm bnum false) = false) :
    write_block d bnum data nm =
      (.success,
       { d with
         cells := fun o => if o = block_pos_raw nm bnum false
             then some (.block data nm.encrypted_fek true) else d.cells o
         size := max d.size (block_pos_raw nm bnum false + block_size_raw) },
       toggle_backup_version_of_block nm bnum) := by
  unfold write_block tee_fs_rpc_write
  simp [hw]

/-- Helper: the patched chunk has exactly the requested size. -/
theorem write_chunk_length (dp : Option (List Nat)) (sz : Nat)
    (hdp : ∀ buf, dp = some buf → sz ≤ buf.length) :
    (write_chunk dp sz).length = sz := by
  cases dp with
  | none => simp [write_chunk]
  | some buf =>
      simp [write_chunk]
      exact hdp buf rfl

/-- Helper: patching keeps the block at `BLOCK_SIZE` bytes. -/
theorem block_patch_length (blk : List Nat) (dp : Option (List Nat))
    (off sz : Nat) (hlen : blk.length = 256) (hoff : off + sz ≤ 256)
    (hdp : ∀ buf, dp = some buf → sz ≤ buf.length) :
    (blk.take off ++ write_chunk dp sz ++
      blk.drop (off + sz)).length = 256 := by
  simp [write_chunk_length dp sz hdp, hlen]
  omega

/-- Helper: inside the patched window the block carries the range write's
bytes. -/
theorem block_patch_getD (blk : List Nat) (dp : Option (List Nat))
    (off sz j : Nat) (hlen : blk.length = 256) (hoff : off + sz ≤ 256)
    (hj : j < sz) (hdp : ∀ buf, dp = some buf → sz ≤ buf.length) :
    (blk.take off ++ write_chunk dp sz ++
      blk.drop (off + sz)).getD (off + j) 0 = dpByte dp j := by
  have hwc := write_chunk_length dp sz hdp
  have htk : (blk.take off).length = off := by simp [hlen]; omega
  have htot := block_patch_length blk dp off sz hlen hoff hdp
  rw [List.getD_eq_getElem _ _ (by omega)]
  rw [List.getElem_append_left (by simp [htk, hwc]; omega)]
  rw [List.getElem_append_right (by omega)]
  cases dp with
  | none =>
      simp [write_chunk, htk, dpByte]
  | some buf =>
      have hbuf := hdp buf rfl
      simp only [write_chunk, htk]
      rw [List.getElem_take]
      simp only [dpByte]
      rw [List.getD_eq_getElem _ _ (by omega)]
      congr 1
      omega

/-- Helper: advancing `data_ptr` shifts the byte index. -/
theorem dpByte_map_drop (dp : Option (List Nat)) (sz j : Nat) :
    dpByte (dp.map (List.drop sz)) j = dpByte dp (sz + j) := by
  cases dp with
  | none => rfl
  | some buf =>
      show (List.drop sz buf).getD j 0 = buf.getD (sz + j) 0
      by_cases h : sz + j < buf.length
      · rw [List.getD_eq_getElem _ _ (by simp; omega),
          List.getD_eq_getElem _ _ h, List.getElem_drop]
      · rw [List.getD_eq_default _ _ (by simp; omega),
          List.getD_eq_default _ _ (by omega)]

/-- Helper: literal-constant lower bound for block slots (meta area ends at
396). -/
theorem block_pos_raw_lb' (m : tee_fs_file_meta) (b : Nat) (a : Bool) :
    396 + 2 * b * 288 ≤ block_pos_raw m b a := by
  have h := block_pos_raw_lb m b a
  simp only [show meta_size = 196 from rfl,
    show block_size_raw = 288 from rfl] at h
  omega

/-- Helper: literal-constant upper bound for a block's slot pair. -/
theorem block_pos_raw_ub' (m : tee_fs_file_meta) (b : Nat) (a : Bool) :
    block_pos_raw m b a ≤ 396 + (2 * b + 1) * 288 := by
  have h := block_pos_raw_ub m b a
  simp only [show meta_size = 196 from rfl,
    show block_size_raw = 288 from rfl] at h
  omega

/-- Helper: a successful block read passes through the ITEM_NOT_FOUND
replacement. -/
theorem read_or_zero_ok (l : List Nat) : read_or_zero (.ok l) = .ok l := rfl

/-- Helper: full invariant of the out-of-place write loop on a failure-free
container â with the iteration count fixed by the covered block range and
every covered block readable under the committed meta, the loop succeeds,
advances the cursor to the end of the range, flips exactly the covered
blocks' backup bits of the candidate, keeps the container below the covered
slots untouched, and afterwards every byte of the range reads back as the
corresponding byte of the range write (buffer byte, or zero for the NULL
fill). -/
theorem oopLoop_spec (cur : tee_fs_file_meta) :
    ∀ (k pos remain : Nat) (dp : Option (List Nat)) (d : Disk)
      (nm : tee_fs_file_meta) (bnum : Nat),
    (remain ≠ 0 → bnum = pos / 256) →
    (∀ o, d.wfail o = false) →
    nm.encrypted_fek = cur.encrypted_fek →
    nm.info.backup_version_table.length = 32 →
    k = (if remain = 0 then 0 else (pos + remain - 1) / 256 + 1 - pos / 256) →
    pos + remain ≤ 262144 →
    (∀ buf, dp = some buf → buf.length = remain) →
    (∀ b, pos / 256 ≤ b → b * 256 < pos + remain → 1 ≤ remain →
      readBlockOk d cur b) →
    ∃ d' nm',
      oopLoop cur dp k d bnum pos remain nm = (.success, d', pos + remain, nm') ∧
      (remain = 0 → d' = d ∧ nm' = nm) ∧
      nm'.encrypted_fek = nm.encrypted_fek ∧
      nm'.info.length = nm.info.length ∧
      nm'.counter = nm.counter ∧
      nm'.info.backup_version_table.length =
        nm.info.backup_version_table.length ∧
      (∀ b, pos / 256 ≤ b → b * 256 < pos + remain → 1 ≤ remain →
        get_backup_version_of_block nm' b =
          ! get_backup_version_of_block nm b) ∧
      (∀ b, remain = 0 ∨ b < pos / 256 ∨ pos + remain ≤ b * 256 →
        get_backup_version_of_block nm' b =
          get_backup_version_of_block nm b) ∧
      d'.wfail = d.wfail ∧
      d.size ≤ d'.size ∧
      d'.size ≤ max d.size (396 + (2 * ((pos + remain - 1) / 256) + 2) * 288) ∧
      (∀ o, o < 396 + 2 * (pos / 256) * 288 → d'.cells o = d.cells o) ∧
      (∀ i, pos ≤ i → i < pos + remain →
        readback d' nm' i = dpByte dp (i - pos)) ∧
      (∀ b, pos / 256 ≤ b → b * 256 < pos + remain → 1 ≤ remain →
        readBlockOk d' nm' b) := by
  intro k
  induction k with
  | zero =>
      intro pos remain dp d nm bnum hbnum hwf hfek htbl hk hmax hdp hok
      have hrem : remain = 0 := by
        by_contra h
        rw [if_neg h] at hk
        omega
      subst hrem
      refine ⟨d, nm, ?_, fun _ => ⟨rfl, rfl⟩, rfl, rfl, rfl, rfl,
        fun b _ _ h1 => absurd h1 (by omega),
        fun b _ => rfl, rfl, Nat.le_refl _, Nat.le_max_left _ _,
        fun o _ => rfl, fun i h1 h2 => absurd h2 (by omega),
        fun b _ _ h1 => absurd h1 (by omega)⟩
      show (TEE_Result.success, d, pos, nm) = (.success, d, pos + 0, nm)
      rw [Nat.add_zero]
  | succ k ih =>
      intro pos remain dp d nm bnum hbnum hwf hfek htbl hk hmax hdp hok
      have hrem : remain ≠ 0 := by
        intro h
        rw [if_pos h] at hk
        exact Nat.succ_ne_zero k hk
      rw [if_neg hrem] at hk
      have hbn := hbnum hrem
      subst hbn
      obtain ⟨blk, hblk, hblklen⟩ := hok (pos / 256) (Nat.le_refl _)
        (by omega) (by omega)
      have hblklen' : blk.length = 256 := hblklen
      have hoffs_ub := block_pos_raw_ub' nm (pos / 256) false
      have hoffs_lb := block_pos_raw_lb' nm (pos / 256) false
      unfold oopLoop
      simp only [show BLOCK_SIZE = 256 from rfl]
      rw [hblk, read_or_zero_ok]
      dsimp only
      have hsz_eq : (if min remain 256 + pos % 256 > 256
          then 256 - pos % 256 else min remain 256) =
          min remain (256 - pos % 256) := by
        split <;> omega
      rw [hsz_eq]
      set sz := min remain (256 - pos % 256) with hszdef
      rw [write_block_nofail d (pos / 256) _ nm (hwf _)]
      dsimp only
      set ofs := block_pos_raw nm (pos / 256) false with hofs
      set bl := blk.take (pos % 256) ++ write_chunk dp sz ++
        blk.drop (pos % 256 + sz) with hbl
      set d1 : Disk := { d with
        cells := fun o => if o = ofs
            then some (.block bl nm.encrypted_fek true) else d.cells o
        size := max d.size (ofs + block_size_raw) } with hd1
      have hd1size : d1.size = max d.size (ofs + 288) := rfl
      have hd1wf : ∀ o, d1.wfail o = false := hwf
      have hbnum1 : remain - sz ≠ 0 → pos / 256 + 1 = (pos + sz) / 256 := by
        intro h
        omega
      have htogf := toggle_fields nm (pos / 256)
      have hfek1 : (toggle_backup_version_of_block nm
          (pos / 256)).encrypted_fek = cur.encrypted_fek := by
        rw [htogf.1]
        exact hfek
      have htbl1 : (toggle_backup_version_of_block nm
          (pos / 256)).info.backup_version_table.length = 32 := by
        rw [htogf.2.2.2]
        exact htbl
      have hk1 : k = (if remain - sz = 0 then 0
          else (pos + sz + (remain - sz) - 1) / 256 + 1 - (pos + sz) / 256) := by
        split <;> omega
      have hmax1 : pos + sz + (remain - sz) ≤ 262144 := by omega
      have hdp1 : ∀ buf, dp.map (List.drop sz) = some buf →
          buf.length = remain - sz := by
        intro buf hbuf
        cases dp with
        | none => simp at hbuf
        | some buf0 =>
            rw [show (some buf0).map (List.drop sz) =
              some (buf0.drop sz) from rfl] at hbuf
            cases hbuf
            simp [hdp buf0 rfl]
      have hok1 : ∀ b, (pos + sz) / 256 ≤ b →
          b * 256 < pos + sz + (remain - sz) → 1 ≤ remain - sz →
          readBlockOk d1 cur b := by
        intro b hb hlt hr
        have hbge : pos / 256 + 1 ≤ b := by omega
        obtain ⟨blk2, hblk2, hlen2⟩ := hok b (by omega) (by omega) (by omega)
        refine ⟨blk2, ?_, hlen2⟩
        rw [← hblk2]
        have hac := block_pos_raw_lb' cur b true
        exact read_block_write_above d cur b ofs
          (.block bl nm.encrypted_fek true) block_size_raw
          (by simp only [show block_size_raw = 288 from rfl] at *; omega)
          (Or.inl (by
            simp only [show block_size_raw = 288 from rfl] at *
            omega))
      obtain ⟨d', nm', heq', h0', hfek', hlen', hctr', htbl', hflip', hkeep',
        hwf', hlo', hhi', hlow', hcontent', hread'⟩ :=
        ih (pos + sz) (remain - sz) (dp.map (List.drop sz)) d1
          (toggle_backup_version_of_block nm (pos / 256)) (pos / 256 + 1)
          hbnum1 hd1wf hfek1 htbl1 hk1 hmax1 hdp1 hok1
      have hps : pos + sz + (remain - sz) = pos + remain := by omega
      rw [hps] at heq' hhi'
      have hb032 : pos / 256 / 32 < nm.info.backup_version_table.length := by
        rw [htbl]
        omega
      have hkeepb0 : get_backup_version_of_block nm' (pos / 256) =
          get_backup_version_of_block
            (toggle_backup_version_of_block nm (pos / 256)) (pos / 256) := by
        apply hkeep'
        rcases Nat.eq_zero_or_pos (remain - sz) with h | h
        · exact Or.inl h
        · exact Or.inr (Or.inl (by omega))
      have hfekc : nm'.encrypted_fek = nm.encrypted_fek := hfek'.trans htogf.1
      have hcells_offs : d'.cells ofs =
          some (Cell.block bl nm.encrypted_fek true) := by
        rcases Nat.eq_zero_or_pos (remain - sz) with h | h
        · rw [(h0' h).1, hd1]
          exact if_pos rfl
        · rw [hlow' ofs (by omega), hd1]
          exact if_pos rfl
      have hrb : read_block d' nm' (pos / 256) = .ok bl := by
        unfold read_block
        simp only []
        have hbp : block_pos_raw nm' (pos / 256) true = ofs := by
          rw [block_pos_raw_congr nm'
            (toggle_backup_version_of_block nm (pos / 256)) _ true hkeepb0,
            hofs]
          exact block_pos_raw_toggle_active nm _ hb032
        rw [hbp, if_neg (by omega : ¬ d'.size ≤ ofs), hcells_offs]
        have hbeq : (nm.encrypted_fek == nm'.encrypted_fek) = true := by
          rw [hfekc]
          exact beq_self_eq_true _
        simp [hbeq]
      have hbllen : bl.length = 256 := by
        rw [hbl]
        exact block_patch_length blk dp _ sz hblklen' (by omega)
          (fun buf hb => by rw [hdp buf hb]; omega)
      refine ⟨d', nm', ?_, ?_, ?_, ?_, ?_, ?_, ?_, ?_, ?_, ?_, ?_, ?_, ?_, ?_⟩
      · exact heq'
      · intro h
        exact absurd h hrem
      · exact hfekc
      · exact hlen'.trans htogf.2.1
      · exact hctr'.trans htogf.2.2.1
      · exact htbl'.trans htogf.2.2.2
      · intro b hb1 hb2 _
        by_cases hbb : b = pos / 256
        · subst hbb
          rw [hkeepb0, get_toggle_self nm _ hb032]
        · have hbge : pos / 256 + 1 ≤ b := by omega
          have hr1 : 1 ≤ remain - sz := by omega
          rw [hflip' b (by omega) (by omega) hr1,
            get_toggle_other nm _ b hbb]
      · intro b hb
        have hne : b ≠ pos / 256 := by
          rcases hb with h | h | h
          · exact absurd h hrem
          · omega
          · omega
        rw [hkeep' b ?_, get_toggle_other nm _ b hne]
        rcases Nat.eq_zero_or_pos (remain - sz) with h | h
        · exact Or.inl h
        · rcases hb with h' | h' | h'
          · exact absurd h' hrem
          · exact Or.inr (Or.inl (by omega))
          · exact Or.inr (Or.inr (by omega))
      · exact hwf'.trans rfl
      · exact le_trans (by rw [hd1size]; exact Nat.le_max_left _ _) hlo'
      · rw [hd1size] at hhi'
        omega
      · intro o ho
        rw [hlow' o (by omega)]
        have hne : o ≠ ofs := by omega
        rw [hd1]
        exact if_neg hne
      · intro i h1 h2
        by_cases hi : i < pos + sz
        · have hdiv : i / 256 = pos / 256 := by omega
          unfold readback
          simp only [show BLOCK_SIZE = 256 from rfl]
          rw [hdiv, hrb]
          dsimp only
          have hmod : i % 256 = pos % 256 + (i - pos) := by omega
          rw [hmod, hbl]
          exact block_patch_getD blk dp (pos % 256) sz (i - pos) hblklen'
            (by omega) (by omega) (fun buf hb => by rw [hdp buf hb]; omega)
        · have hc := hcontent' i (by omega) (by omega)
          rw [dpByte_map_drop] at hc
          rw [show sz + (i - (pos + sz)) = i - pos from by omega] at hc
          exact hc
      · intro b hb1 hb2 _
        by_cases hbb : b = pos / 256
        · subst hbb
          exact ⟨bl, hrb, hbllen⟩
        · have hr1 : 1 ≤ remain - sz := by omega
          exact hread' b (by omega) (by omega) hr1


/-- Helper: the block number of a position is its 256-byte quotient. -/
theorem pos_to_block_num_eq (p : Nat) : pos_to_block_num p = p / 256 := by
  unfold pos_to_block_num BLOCK_SHIFT
  exact Nat.shiftRight_eq_div_pow p 8

/-- Helper: with a nonzero length, the C int iteration count of the
range-write loop is the nonnegative block count of the covered range. -/
theorem oop_iters_eq (pos len : Nat) (h : 1 ≤ len) :
    oop_iters pos len = (pos + len - 1) / 256 + 1 - pos / 256 := by
  unfold oop_iters
  simp only [pos_to_block_num_eq]
  have h1 : ((pos : Int) + (len : Int) - 1) = ((pos + len - 1 : Nat) : Int) := by
    omega
  rw [h1, Int.fdiv_eq_div (by omega) (by exact Int.natCast_nonneg _),
    show ((BLOCK_SIZE : Nat) : Int) = ((256 : Nat) : Int) from rfl,
    ← Int.ofNat_div]
  omega

/-- Helper: a block whose active slot sits at or past the file size reads
back as the all-zero block. -/
theorem readBlockOk_empty_slot (d : Disk) (m : tee_fs_file_meta) (b : Nat)
    (h : d.size ≤ block_pos_raw m b true) : readBlockOk d m b := by
  refine ⟨List.replicate BLOCK_SIZE 0, ?_, by simp⟩
  unfold read_block
  rw [if_pos h]

/-- Helper: gathering a list byte by byte reproduces the list. -/
theorem map_getD_range (l : List Nat) :
    (List.range l.length).map (fun j => l.getD j 0) = l := by
  apply List.ext_getElem
  · simp
  · intro j h1 h2
    rw [List.getElem_map, List.getElem_range,
      List.getD_eq_getElem _ _ (by simpa using h2)]

/-- Helper: evaluation of an absolute seek to a position within the
representable range. -/
theorem seek_set_eval (fdp : tee_fs_fd) (p : Nat) (hp : p ≤ 4294967295) :
    ree_fs_seek fdp (p : Int) .dataSeekSet = (.success, { fdp with pos := p }) := by
  unfold ree_fs_seek
  dsimp only
  rw [if_neg (by omega : ¬ (p : Int) < 0),
    if_neg (by
      show ¬ ((p : Int) > ((TEE_DATA_MAX_POSITION : Nat) : Int))
      rw [show ((TEE_DATA_MAX_POSITION : Nat) : Int) =
        ((4294967295 : Nat) : Int) from rfl]
      omega),
    show ((p : Int)).toNat = p from by omega]

/-- Helper: a commit does not change any logical byte of the file (its
writes stay below the block area). -/
theorem readback_commit (d : Disk) (fdp : tee_fs_fd)
    (nm m : tee_fs_file_meta) (i : Nat)
    (h1 : d.wfail (meta_pos_raw fdp.meta_counter false) = false)
    (h2 : d.wfail 0 = false)
    (hsz : 4 + meta_size * 2 ≤ d.size) :
    readback (commit_meta_file d fdp nm).2.1 m i = readback d m i := by
  unfold readback
  rw [read_block_after_commit d fdp nm h1 h2 hsz]

/-- Helper: block readability survives a commit. -/
theorem readBlockOk_commit (d : Disk) (fdp : tee_fs_fd)
    (nm m : tee_fs_file_meta) (b : Nat)
    (h1 : d.wfail (meta_pos_raw fdp.meta_counter false) = false)
    (h2 : d.wfail 0 = false)
    (hsz : 4 + meta_size * 2 ≤ d.size)
    (h : readBlockOk d m b) :
    readBlockOk (commit_meta_file d fdp nm).2.1 m b := by
  unfold readBlockOk
  rw [read_block_after_commit d fdp nm h1 h2 hsz]
  exact h

/-- Helper: evaluation of `ree_fs_open` on a container holding a counter
word and an intact meta at the counter's active slot. -/
theorem ree_fs_open_spec (d : Disk) (c : Nat) (info : tee_fs_file_info)
    (fek : Nat)
    (hsz : 396 ≤ d.size)
    (hc : d.cells 0 = some (.counter c))
    (hm : d.cells (meta_pos_raw c true) = some (.meta info fek true)) :
    ree_fs_open d = (.success,
      { meta_counter := c
        meta := { info := info, encrypted_fek := fek, counter := 0 }
        pos := 0 }) := by
  have hle := meta_pos_raw_le c true
  have hms : meta_size = 196 := rfl
  unfold ree_fs_open read_meta read_meta_counter
  rw [if_neg (by omega : ¬ d.size < 4), hc]
  dsimp only
  unfold read_meta_file
  dsimp only
  rw [if_neg (by omega : ¬ d.size ≤ meta_pos_raw c true), hm]
  rfl

/-- Helper: a read whose range lies inside the logical length and whose
covered blocks are readable succeeds and delivers exactly the `readback`
bytes of `[pos, pos + len)`. -/
theorem ree_fs_read_spec (d : Disk) (fdp : tee_fs_fd) (len : Nat)
    (hlen : 1 ≤ len)
    (hmax : fdp.pos + len ≤ 262144)
    (hL : fdp.pos + len ≤ fdp.meta.info.length)
    (hok : ∀ b, fdp.pos / 256 ≤ b → b * 256 < fdp.pos + len →
      readBlockOk d fdp.meta b) :
    ree_fs_read d fdp len =
      (.success,
       (List.range len).map (fun j => readback d fdp.meta (fdp.pos + j)),
       len, { fdp with pos := fdp.pos + len }) := by
  have hU : UINT32_MOD = 4294967296 := rfl
  have hmod : (fdp.pos + len) % UINT32_MOD = fdp.pos + len :=
    Nat.mod_eq_of_lt (by omega)
  unfold ree_fs_read
  simp only []
  rw [hmod]
  rw [if_neg (by omega :
    ¬ (fdp.pos + len < len ∨ fdp.pos > fdp.meta.info.length))]
  rw [if_neg (by omega : ¬ fdp.pos + len > fdp.meta.info.length)]
  rw [if_neg (by omega : ¬ len = 0)]
  simp only [pos_to_block_num_eq]
  have hloop := readLoop_spec d fdp.meta
    ((fdp.pos + len - 1) / 256 + 1 - fdp.pos / 256) fdp.pos len []
    (by
      rw [if_neg (by omega)]
      rfl)
    (fun b hb hlt _ => hok b (by simpa using hb)
      (by
        have h256 : BLOCK_SIZE = 256 := rfl
        rw [h256] at hlt
        exact hlt))
  rw [show fdp.pos / BLOCK_SIZE = fdp.pos / 256 from rfl] at hloop
  rw [hloop]
  rw [if_neg (by simp : ¬ (TEE_Result.success = TEE_Result.macInvalid))]
  rw [List.nil_append]


/-- Helper: `out_of_place_write` on a failure-free container â success,
the cursor moved to the end of the range, the candidate's length extended
to cover the cursor, and the written range reading back as the range
write's bytes. -/
theorem out_of_place_write_spec (d : Disk) (fdp : tee_fs_fd)
    (dp : Option (List Nat)) (len : Nat) (nm : tee_fs_file_meta)
    (hlen : 1 ≤ len)
    (hwf : ∀ o, d.wfail o = false)
    (hfek : nm.encrypted_fek = fdp.meta.encrypted_fek)
    (htbl : nm.info.backup_version_table.length = 32)
    (hmax : fdp.pos + len ≤ 262144)
    (hdp : ∀ buf, dp = some buf → buf.length = len)
    (hok : ∀ b, fdp.pos / 256 ≤ b → b * 256 < fdp.pos + len →
      readBlockOk d fdp.meta b) :
    ∃ d' nm',
      out_of_place_write d fdp dp len nm =
        (.success, d', { fdp with pos := fdp.pos + len }, nm') ∧
      nm'.encrypted_fek = nm.encrypted_fek ∧
      nm'.info.length = max nm.info.length (fdp.pos + len) ∧
      nm'.counter = nm.counter ∧
      nm'.info.backup_version_table.length = 32 ∧
      d'.wfail = d.wfail ∧
      d.size ≤ d'.size ∧
      d'.size ≤ max d.size (396 + (2 * ((fdp.pos + len - 1) / 256) + 2) * 288) ∧
      (∀ o, o < 396 + 2 * (fdp.pos / 256) * 288 → d'.cells o = d.cells o) ∧
      (∀ i, fdp.pos ≤ i → i < fdp.pos + len →
        readback d' nm' i = dpByte dp (i - fdp.pos)) ∧
      (∀ b, fdp.pos / 256 ≤ b → b * 256 < fdp.pos + len →
        readBlockOk d' nm' b) := by
  have hk0 : oop_iters fdp.pos len =
      (fdp.pos + len - 1) / 256 + 1 - fdp.pos / 256 := oop_iters_eq _ _ hlen
  have hkne : ¬ oop_iters fdp.pos len = 0 := by
    rw [hk0]
    omega
  obtain ⟨d', nm', heq, h0, hfek', hlen', hctr', htbl', hflip, hkeep,
    hwfeq, hlo, hhi, hlow, hcontent, hread⟩ :=
    oopLoop_spec fdp.meta (oop_iters fdp.pos len) fdp.pos len dp d nm
      (pos_to_block_num fdp.pos)
      (fun _ => pos_to_block_num_eq fdp.pos) hwf hfek htbl
      (by rw [hk0, if_neg (by omega : ¬ len = 0)]) hmax hdp
      (fun b hb hlt _ => hok b hb hlt)
  set nmF := if fdp.pos + len > nm'.info.length then
      { nm' with info := { nm'.info with length := fdp.pos + len } }
    else nm' with hnmF
  have hbvtF : nmF.info.backup_version_table =
      nm'.info.backup_version_table := by
    rw [hnmF]
    split <;> rfl
  have hfekF : nmF.encrypted_fek = nm'.encrypted_fek := by
    rw [hnmF]
    split <;> rfl
  have hctrF : nmF.counter = nm'.counter := by
    rw [hnmF]
    split <;> rfl
  have hlenF : nmF.info.length = max nm.info.length (fdp.pos + len) := by
    rw [hnmF]
    split
    · next h =>
        rw [hlen'] at h
        show fdp.pos + len = max nm.info.length (fdp.pos + len)
        omega
    · next h =>
        rw [hlen']
        rw [hlen'] at h
        omega
  have hbit : ∀ b, get_backup_version_of_block nmF b =
      get_backup_version_of_block nm' b := by
    intro b
    unfold get_backup_version_of_block
    rw [hbvtF]
  refine ⟨d', nmF, ?_, hfekF.trans hfek', hlenF, hctrF.trans hctr',
    ?_, hwfeq, hlo, hhi, hlow, ?_, ?_⟩
  · unfold out_of_place_write
    simp only []
    rw [if_neg hkne, heq]
  · rw [hbvtF]
    have : nm'.info.backup_version_table.length =
        nm.info.backup_version_table.length := htbl'
    rw [this, htbl]
  · intro i h1 h2
    rw [readback_congr d' nmF nm' i (hbit _) hfekF]
    exact hcontent i h1 h2
  · intro b hb hlt
    unfold readBlockOk
    rw [read_block_congr d' nmF nm' b (hbit _) hfekF]
    exact hread b hb hlt (by omega)


/-- Helper: a truncate-extend on a fresh container (only the meta area
written) succeeds, commits a meta of the new length, leaves the cursor
alone and leaves every block of the zero-filled range readable. -/
theorem ftruncate_extend_fresh (d : Disk) (fdp : tee_fs_fd) (n : Nat)
    (hwf : ∀ o, d.wfail o = false)
    (hsz : d.size = 396)
    (htbl : fdp.meta.info.backup_version_table.length = 32)
    (hlt : fdp.meta.info.length < n)
    (hn : n ≤ 262144) :
    ∃ d1 fdp1,
      ree_fs_ftruncate_internal d fdp n = (.success, d1, fdp1) ∧
      fdp1.pos = fdp.pos ∧
      fdp1.meta.info.length = n ∧
      fdp1.meta.encrypted_fek = fdp.meta.encrypted_fek ∧
      fdp1.meta.info.backup_version_table.length = 32 ∧
      fdp1.meta_counter = (fdp.meta_counter + 1) % UINT32_MOD ∧
      (∀ o, d1.wfail o = false) ∧
      396 ≤ d1.size ∧
      d1.size ≤ 396 + (2 * ((n - 1) / 256) + 2) * 288 ∧
      (∀ b, fdp.meta.info.length / 256 ≤ b → b * 256 < n →
        readBlockOk d1 fdp1.meta b) := by
  obtain ⟨mc, fmeta, fpos⟩ := fdp
  dsimp only at htbl hlt ⊢
  have hlen1 : 1 ≤ n - fmeta.info.length := by omega
  obtain ⟨d', nm', hE, hfekE, hlenE, hctrE, htblE, hwfE, hloE, hhiE,
    hlowE, hcontE, hokE⟩ :=
    out_of_place_write_spec d ⟨mc, fmeta, fmeta.info.length⟩ none
      (n - fmeta.info.length)
      { fmeta with info := { fmeta.info with length := n } }
      hlen1 hwf rfl htbl (by dsimp only; omega)
      (fun buf hb => by cases hb)
      (fun b hb hlt2 => readBlockOk_empty_slot d _ b (by
        show d.size ≤ block_pos_raw fmeta b true
        have := block_pos_raw_lb' fmeta b true
        omega))
  dsimp only at hE hfekE hlenE hctrE htblE hcontE hokE hhiE hlowE
  have hps : fmeta.info.length + (n - fmeta.info.length) = n := by omega
  rw [hps] at hE hcontE hokE hhiE
  have hne : ¬ n > MAX_FILE_SIZE := by
    rw [show MAX_FILE_SIZE = 262144 from rfl]
    omega
  have hw1 : d'.wfail (meta_pos_raw mc false) = false := by
    rw [hwfE]
    exact hwf _
  have hw2 : d'.wfail 0 = false := by
    rw [hwfE]
    exact hwf _
  obtain ⟨hr, hfd, hwl, hszC, hc0, hcm, hcells⟩ :=
    commit_meta_file_nofail d' ⟨mc, fmeta, fpos⟩ nm' hw1 hw2
  rcases hE2 : commit_meta_file d' ⟨mc, fmeta, fpos⟩ nm' with ⟨r, d3, fd4, nm3⟩
  rw [hE2] at hr hfd hwl hszC hc0 hcm hcells
  dsimp only at hr hfd hwl hszC hc0 hcm hcells
  subst hr
  subst hfd
  have hW : ree_fs_ftruncate_internal d ⟨mc, fmeta, fpos⟩ n =
      (.success, d3,
       { meta_counter := (mc + 1) % UINT32_MOD
         meta := { nm' with counter := (mc + 1) % UINT32_MOD }
         pos := fpos }) := by
    unfold ree_fs_ftruncate_internal
    dsimp only
    rw [if_neg hne, if_pos hlt, hE]
    dsimp only
    rw [if_neg (fun h => h rfl), hE2]
  have hd3sz : d3.size = d'.size := by
    have hle := meta_pos_raw_le mc false
    have hms : meta_size = 196 := rfl
    rw [hszC]
    omega
  have hlenn : nm'.info.length = n := by
    rw [hlenE]
    omega
  refine ⟨d3, _, hW, rfl, hlenn, hfekE, htblE, rfl,
    fun o => by rw [hwl, hwfE]; exact hwf o,
    by rw [hd3sz]; omega,
    by
      rw [hd3sz]
      have h396 : 396 ≤ 396 + (2 * ((n - 1) / 256) + 2) * 288 := by omega
      omega,
    ?_⟩
  intro b hb hbl
  have h1 : readBlockOk d' { nm' with counter := (mc + 1) % UINT32_MOD } b := by
    unfold readBlockOk
    rw [read_block_congr d' { nm' with counter := (mc + 1) % UINT32_MOD }
      nm' b rfl rfl]
    exact hokE b hb hbl
  have h2 := readBlockOk_commit d' ⟨mc, fmeta, fpos⟩ nm'
    { nm' with counter := (mc + 1) % UINT32_MOD } b hw1 hw2
    (by
      show 4 + meta_size * 2 ≤ d'.size
      rw [show meta_size = 196 from rfl]
      omega) h1
  rw [hE2] at h2
  exact h2


/-- Helper: the candidate meta returned by a commit always carries
`meta_counter + 1` (32-bit) as its counter. -/
theorem commit_meta_file_nm (d : Disk) (fdp : tee_fs_fd)
    (nm : tee_fs_file_meta) :
    (commit_meta_file d fdp nm).2.2.2 =
      { nm with counter := (fdp.meta_counter + 1) % UINT32_MOD } := by
  unfold commit_meta_file write_meta_file write_meta_counter tee_fs_rpc_write
  dsimp only
  by_cases h : d.wfail (meta_pos_raw fdp.meta_counter false) <;> simp [h]

/-- Helper: the range-write-then-commit tail of `ree_fs_write` on a
failure-free container, with the resulting container's counter word, active
meta cell and readable range made explicit. -/
theorem write_commit_spec (d1 : Disk) (mc1 : Nat)
    (fmeta1 : tee_fs_file_meta) (fpos : Nat) (data : List Nat)
    (hwf1 : ∀ o, d1.wfail o = false)
    (htbl1 : fmeta1.info.backup_version_table.length = 32)
    (hlen : 1 ≤ data.length)
    (hmax1 : fpos + data.length ≤ 262144)
    (hok1 : ∀ b, fpos / 256 ≤ b → b * 256 < fpos + data.length →
      readBlockOk d1 fmeta1 b)
    (hsz1 : 396 ≤ d1.size) :
    ∃ d2 nm2 d3,
      out_of_place_write d1 ⟨mc1, fmeta1, fpos⟩ (some data) data.length
          fmeta1 =
        (.success, d2, ⟨mc1, fmeta1, fpos + data.length⟩, nm2) ∧
      commit_meta_file d2 ⟨mc1, fmeta1, fpos + data.length⟩ nm2 =
        (.success, d3,
         ⟨(mc1 + 1) % UINT32_MOD,
          { nm2 with counter := (mc1 + 1) % UINT32_MOD },
          fpos + data.length⟩,
         { nm2 with counter := (mc1 + 1) % UINT32_MOD }) ∧
      nm2.info.length = max fmeta1.info.length (fpos + data.length) ∧
      nm2.encrypted_fek = fmeta1.encrypted_fek ∧
      nm2.info.backup_version_table.length = 32 ∧
      (∀ o, d3.wfail o = false) ∧
      396 ≤ d3.size ∧
      d3.cells 0 = some (.counter ((mc1 + 1) % UINT32_MOD)) ∧
      d3.cells (meta_pos_raw ((mc1 + 1) % UINT32_MOD) true) =
        some (.meta nm2.info nm2.encrypted_fek true) ∧
      (∀ i, fpos ≤ i → i < fpos + data.length →
        readback d3 nm2 i = data.getD (i - fpos) 0) ∧
      (∀ b, fpos / 256 ≤ b → b * 256 < fpos + data.length →
        readBlockOk d3 nm2 b) := by
  obtain ⟨d2, nm2, hE, hfek2, hlen2, hctr2, htbl2, hwf2, hlo2, hhi2,
    hlow2, hcont2, hok2⟩ :=
    out_of_place_write_spec d1 ⟨mc1, fmeta1, fpos⟩ (some data)
      data.length fmeta1 hlen hwf1 rfl htbl1 (by dsimp only; omega)
      (fun buf hb => by cases hb; rfl)
      (by
        intro b hb hbl
        dsimp only at hb hbl
        exact hok1 b hb hbl)
  dsimp only at hE hfek2 hlen2 hcont2 hok2
  have hw1 : d2.wfail (meta_pos_raw mc1 false) = false := by
    rw [hwf2]
    exact hwf1 _
  have hw2 : d2.wfail 0 = false := by
    rw [hwf2]
    exact hwf1 _
  have hd2sz : 396 ≤ d2.size := by omega
  obtain ⟨hr, hfd, hwl, hszC, hc0, hcm, hcells⟩ :=
    commit_meta_file_nofail d2 ⟨mc1, fmeta1, fpos + data.length⟩ nm2 hw1 hw2
  rcases hE2 : commit_meta_file d2 ⟨mc1, fmeta1, fpos + data.length⟩ nm2
    with ⟨r, d3, fd3, nm3⟩
  have hnm3 := commit_meta_file_nm d2 ⟨mc1, fmeta1, fpos + data.length⟩ nm2
  rw [hE2] at hr hfd hwl hszC hc0 hcm hcells hnm3
  dsimp only at hr hfd hwl hszC hc0 hcm hcells hnm3
  subst hr
  subst hfd
  subst hnm3
  have hms : meta_size = 196 := rfl
  have hmple := meta_pos_raw_le mc1 false
  have hd3sz : d3.size = d2.size := by
    rw [hszC]
    omega
  have htrans : ∀ m i, readback d3 m i = readback d2 m i := by
    intro m i
    have h := readback_commit d2 ⟨mc1, fmeta1, fpos + data.length⟩ nm2 m i
      hw1 hw2 (by omega)
    rw [hE2] at h
    exact h
  have hbtrans : ∀ m b, readBlockOk d2 m b → readBlockOk d3 m b := by
    intro m b h
    have h2 := readBlockOk_commit d2 ⟨mc1, fmeta1, fpos + data.length⟩ nm2
      m b hw1 hw2 (by omega) h
    rw [hE2] at h2
    exact h2
  refine ⟨d2, nm2, d3, hE, hE2, hlen2, hfek2, htbl2,
    fun o => by rw [hwl, hwf2]; exact hwf1 o,
    by omega, hc0, ?_, ?_, ?_⟩
  · rw [meta_shadow_becomes_active mc1]
    exact hcm
  · intro i h1 h2
    rw [htrans nm2 i]
    exact hcont2 i h1 h2
  · intro b hb hbl
    exact hbtrans nm2 b (hok2 b hb hbl)

/-- Helper: a nonzero write on a fresh container succeeds, moves the cursor
past the written range, commits a meta whose length covers the range, and
leaves a container from which open and read recover exactly the written
bytes. -/
theorem ree_fs_write_fresh (d : Disk) (fdp : tee_fs_fd) (data : List Nat)
    (hwf : ∀ o, d.wfail o = false)
    (hsz : d.size = 396)
    (htbl : fdp.meta.info.backup_version_table.length = 32)
    (hne : data ≠ [])
    (hmax : fdp.pos + data.length ≤ 262144) :
    ∃ d' fdp',
      ree_fs_write d fdp data = (.success, d', fdp') ∧
      fdp'.pos = fdp.pos + data.length ∧
      fdp'.meta.info.length =
        max fdp.meta.info.length (fdp.pos + data.length) ∧
      396 ≤ d'.size ∧
      d'.cells 0 = some (.counter fdp'.meta_counter) ∧
      d'.cells (meta_pos_raw fdp'.meta_counter true) =
        some (.meta fdp'.meta.info fdp'.meta.encrypted_fek true) ∧
      (∀ i, fdp.pos ≤ i → i < fdp.pos + data.length →
        readback d' fdp'.meta i = data.getD (i - fdp.pos) 0) ∧
      (∀ b, fdp.pos / 256 ≤ b → b * 256 < fdp.pos + data.length →
        readBlockOk d' fdp'.meta b) := by
  obtain ⟨mc, fmeta, fpos⟩ := fdp
  dsimp only at htbl hmax ⊢
  have hlen : 1 ≤ data.length := List.length_pos.mpr hne
  have hU : UINT32_MOD = 4294967296 := rfl
  have hmod : (fpos + data.length) % UINT32_MOD = fpos + data.length :=
    Nat.mod_eq_of_lt (by omega)
  by_cases hfs : fmeta.info.length < fpos
  · obtain ⟨d1, fdp1, hT, hTpos, hTlen, hTfek, hTtbl, hTmc, hTwf, hTszlo,
      hTszhi, hTok⟩ :=
      ftruncate_extend_fresh d ⟨mc, fmeta, fpos⟩ fpos hwf hsz htbl hfs
        (by omega)
    obtain ⟨mc1, fmeta1, fpos1⟩ := fdp1
    dsimp only at hT hTpos hTlen hTfek hTtbl hTmc hTok
    have hTpos' : fpos = fpos1 := hTpos.symm
    subst hTpos'
    obtain ⟨d2, nm2, d3, hE, hE2, hlen2, hfek2, htbl2, hwf3, hsz3,
      hc0, hcm, hcont3, hok3⟩ :=
      write_commit_spec d1 mc1 fmeta1 fpos data hTwf hTtbl hlen (by omega)
        (by
          intro b hb hbl
          by_cases hblt : b * 256 < fpos
          · exact hTok b (by
              have := Nat.div_le_div_right (c := 256) (Nat.le_of_lt hfs)
              omega) hblt
          · refine readBlockOk_empty_slot d1 fmeta1 b ?_
            have hlb := block_pos_raw_lb' fmeta1 b true
            omega)
        hTszlo
    have hW : ree_fs_write d ⟨mc, fmeta, fpos⟩ data =
        (.success, d3,
         ⟨(mc1 + 1) % UINT32_MOD,
          { nm2 with counter := (mc1 + 1) % UINT32_MOD },
          fpos + data.length⟩) := by
      unfold ree_fs_write
      dsimp only
      rw [if_neg (by omega : ¬ data.length = 0), hmod,
        if_neg (by
          rw [show MAX_FILE_SIZE = 262144 from rfl]
          omega),
        if_pos hfs, hT]
      dsimp only
      rw [hE]
      dsimp only
      rw [if_neg (fun h => h rfl), hE2]
    refine ⟨d3, _, hW, rfl, ?_, hsz3, hc0, hcm, hcont3, hok3⟩
    rw [show (⟨(mc1 + 1) % UINT32_MOD,
        { nm2 with counter := (mc1 + 1) % UINT32_MOD },
        fpos + data.length⟩ : tee_fs_fd).meta.info.length =
      nm2.info.length from rfl, hlen2, hTlen]
    omega
  · obtain ⟨d2, nm2, d3, hE, hE2, hlen2, hfek2, htbl2, hwf3, hsz3,
      hc0, hcm, hcont3, hok3⟩ :=
      write_commit_spec d mc fmeta fpos data hwf htbl hlen (by omega)
        (fun b hb hbl => readBlockOk_empty_slot d fmeta b (by
          have hlb := block_pos_raw_lb' fmeta b true
          omega))
        (by omega)
    have hW : ree_fs_write d ⟨mc, fmeta, fpos⟩ data =
        (.success, d3,
         ⟨(mc + 1) % UINT32_MOD,
          { nm2 with counter := (mc + 1) % UINT32_MOD },
          fpos + data.length⟩) := by
      unfold ree_fs_write
      dsimp only
      rw [if_neg (by omega : ¬ data.length = 0), hmod,
        if_neg (by
          rw [show MAX_FILE_SIZE = 262144 from rfl]
          omega),
        if_neg hfs]
      dsimp only
      rw [hE]
      dsimp only
      rw [if_neg (fun h => h rfl), hE2]
    exact ⟨d3, _, hW, rfl, hlen2, hsz3, hc0, hcm, hcont3, hok3⟩


/-- Helper: evaluation of a failure-free create. -/
theorem create_eval :
    ree_fs_create (fun _ => false) = (.success, createDisk, createFd) := rfl

/-- C1 (amended): for every `(pos, data)` with `1 ≤ |data|` and `pos +
|data| ≤ MAX_FILE_SIZE`, the round-trip `create; seek(pos); write(data);
close; open; seek(pos); read(|data|)` on a fresh, failure-free container
succeeds and returns exactly `data`, reporting `|data|` bytes. -/
theorem c1_round_trip (pos : Nat) (data : List Nat) (hne : data ≠ [])
    (hmax : pos + data.length ≤ MAX_FILE_SIZE) :
    roundTrip pos data = (.success, data, data.length) := by
  have hM : MAX_FILE_SIZE = 262144 := rfl
  rw [hM] at hmax
  have hlen : 1 ≤ data.length := List.length_pos.mpr hne
  have h0 : createFd.meta.info.length = 0 := rfl
  obtain ⟨d1, fdp', hW, hpos', hlen', hsz1, hc0, hcm, hrb, hok⟩ :=
    ree_fs_write_fresh createDisk { createFd with pos := pos } data
      (fun _ => rfl) rfl
      (by
        show createFd.meta.info.backup_version_table.length = 32
        decide)
      hne (by dsimp only; omega)
  dsimp only at hpos' hlen' hrb hok
  obtain ⟨mcF, metaF, posF⟩ := fdp'
  dsimp only at hpos' hlen' hc0 hcm hrb hok
  subst hpos'
  unfold roundTrip
  rw [create_eval]
  dsimp only
  rw [seek_set_eval createFd pos (by omega)]
  dsimp only
  rw [hW]
  dsimp only
  rw [ree_fs_open_spec d1 mcF metaF.info metaF.encrypted_fek hsz1 hc0 hcm]
  dsimp only
  rw [seek_set_eval _ pos (by omega)]
  dsimp only
  have hread := ree_fs_read_spec d1
    ⟨mcF, { info := metaF.info, encrypted_fek := metaF.encrypted_fek,
            counter := 0 }, pos⟩ data.length hlen
    (by dsimp only; omega)
    (by
      show pos + data.length ≤ metaF.info.length
      omega)
    (by
      intro b hb hbl
      dsimp only at hb hbl ⊢
      unfold readBlockOk
      rw [read_block_congr d1
        { info := metaF.info, encrypted_fek := metaF.encrypted_fek,
          counter := 0 } metaF b rfl rfl]
      exact hok b hb hbl)
  rw [hread]
  dsimp only
  have hmapeq : (List.range data.length).map
      (fun j => readback d1
        ({ info := metaF.info, encrypted_fek := metaF.encrypted_fek,
           counter := 0 } : tee_fs_file_meta) (pos + j)) = data := by
    have h1 : ∀ j ∈ List.range data.length,
        readback d1
          ({ info := metaF.info, encrypted_fek := metaF.encrypted_fek,
             counter := 0 } : tee_fs_file_meta) (pos + j) =
          data.getD j 0 := by
      intro j hj
      rw [List.mem_range] at hj
      rw [readback_congr d1
        { info := metaF.info, encrypted_fek := metaF.encrypted_fek,
          counter := 0 } metaF _ rfl rfl]
      rw [hrb (pos + j) (by omega) (by omega)]
      congr 1
      omega
    rw [List.map_congr_left h1]
    exact map_getD_range data
  rw [hmapeq]


/-- C1 counterexample to the unamended sentence: with `data = []` (which
satisfies `pos + |data| ≤ MAX_FILE_SIZE`), the zero-length write succeeds
without committing, so the fresh container still has no active meta and the
reopen fails with CORRUPT_OBJECT instead of delivering the (empty) buffer. -/
theorem c1_counterexample :
    roundTrip 0 [] = (.corruptObject, [], 0) := by decide

/-- C1 witness: the round trip at `pos = 0` with the one-byte buffer `[1]`. -/
theorem c1_round_trip_witness :
    ([1] : List Nat) ≠ [] ∧ 0 + ([1] : List Nat).length ≤ MAX_FILE_SIZE ∧
    roundTrip 0 [1] = (.success, [1], 1) :=
  ⟨by decide, by decide, c1_round_trip 0 [1] (by decide) (by decide)⟩
